import Mathlib

/-!
Verification of the communication core of the UART camera system
(`uart_handler.py`, `file_transfer.py`, `file_transfer_protocol.py`).
The Python code is shallowly embedded: strings are Lean strings (with
list-of-char primitives mirroring the Python string operations used),
byte payloads are lists of naturals, the filesystem is an association
list from names to contents, and wall-clock waits are modelled by
explicit scripts of incoming responses with timeout markers.
-/

namespace Camara

/-- Characters stripped by Python `str.strip()` (ASCII whitespace). -/
def pyIsSpace (c : Char) : Bool :=
  c = ' ' || c = '\t' || c = '\n' || c = '\r' || c = '\x0b' || c = '\x0c'

/-- `str.strip()` on a list of characters: drop whitespace at both ends. -/
def pyStripL (s : List Char) : List Char :=
  ((s.dropWhile pyIsSpace).reverse.dropWhile pyIsSpace).reverse

/-- `str.strip()`. -/
def pyStrip (s : String) : String :=
  ⟨pyStripL s.data⟩

/-- `str.lower()` (ASCII case folding, as used by the dispatcher). -/
def pyLower (s : String) : String :=
  ⟨s.data.map Char.toLower⟩

/-- `str.upper()` (used by the confirmation matcher). -/
def pyUpper (s : String) : String :=
  ⟨s.data.map Char.toUpper⟩

/-- `str.split(sep)` on character lists: split at every occurrence of `sep`.
`"".split(sep)` is `[""]`, and a trailing separator yields a final `""`. -/
def pySplitL (sep : Char) : List Char → List (List Char)
  | [] => [[]]
  | c :: cs =>
    if c = sep then [] :: pySplitL sep cs
    else
      match pySplitL sep cs with
      | [] => [[c]]
      | h :: t => (c :: h) :: t

/-- `str.split(sep, 1)` decomposition: text before the first `sep` and the
rest after it (the whole string and `[]` when `sep` does not occur). -/
def splitFirstL (sep : Char) : List Char → List Char × List Char
  | [] => ([], [])
  | c :: cs =>
    if c = sep then ([], cs)
    else
      let p := splitFirstL sep cs
      (c :: p.1, p.2)

/-- `sep.join`: interleave a separator character between the pieces. -/
def joinL (sep : Char) : List (List Char) → List Char
  | [] => []
  | [x] => x
  | x :: xs => x ++ sep :: joinL sep xs

/-- Decimal digits, most significant first, with explicit fuel (each step
divides by ten, so `n + 1` steps always suffice). -/
def natDigitsGo : Nat → Nat → List Nat
  | 0, _ => []
  | fuel + 1, n => if n < 10 then [n] else natDigitsGo fuel (n / 10) ++ [n % 10]

/-- Decimal digits of a natural number, most significant first
(the digits of Python `str(n)` for a non-negative `n`). -/
def natDigits (n : Nat) : List Nat :=
  natDigitsGo (n + 1) n

/-- The character of a decimal digit. -/
def digitChar (d : Nat) : Char :=
  Char.ofNat (48 + d)

/-- Python `str(n)` for a non-negative integer. -/
def pyStrNat (n : Nat) : String :=
  ⟨(natDigits n).map digitChar⟩

/-- Digit value of a character, `none` for non-digits. -/
def charDigit (c : Char) : Option Nat :=
  if 48 ≤ c.toNat ∧ c.toNat ≤ 57 then some (c.toNat - 48) else none

/-- Accumulate the decimal value of a run of digit characters. -/
def digitsValAux (acc : Nat) : List Char → Option Nat
  | [] => some acc
  | c :: cs =>
    match charDigit c with
    | some d => digitsValAux (acc * 10 + d) cs
    | none => none

/-- Value of a non-empty all-digit character list. -/
def digitsVal : List Char → Option Nat
  | [] => none
  | c :: cs => digitsValAux 0 (c :: cs)

/-- Python `int(s)`: strip whitespace, optional sign, decimal digits. -/
def pyIntL (s : List Char) : Option Int :=
  match pyStripL s with
  | [] => none
  | c :: cs =>
    if c = '-' then
      match digitsVal cs with
      | some n => some (-(n : Int))
      | none => none
    else if c = '+' then
      match digitsVal cs with
      | some n => some ((n : Int))
      | none => none
    else
      match digitsVal (c :: cs) with
      | some n => some ((n : Int))
      | none => none

/-- Command structure parsed by the dispatcher (`ComandoUART`).  The source
also records a wall-clock `timestamp`, which is not modelled. -/
structure ComandoUART where
  comando : String
  parametros : List String
deriving Repr, DecidableEq

/-- `ComandoUART.from_string`: strip the line; if it contains `':'`, split at
every `':'`, the lowercased first piece is the command and the remaining
pieces are the parameters; otherwise the lowercased stripped line is the
command with no parameters. -/
def ComandoUART.fromString (linea : String) : ComandoUART :=
  let partes : List String :=
    if ':' ∈ linea.data then (pySplitL ':' (pyStrip linea).data).map (fun l => ⟨l⟩)
    else [pyStrip linea]
  { comando := pyLower (partes.headD "")
    parametros := partes.tail }

/-- Parsed transfer header (`ProtocoloTransferencia.parsear_header` result,
and the metadata a receiver keeps in `info_archivo_actual`). -/
structure HeaderInfo where
  nombre_archivo : String
  tamano : Int
  checksum : String
  comprimido : Bool
  tamano_comprimido : Int
deriving Repr, DecidableEq

/-- `ProtocoloTransferencia.crear_header`: join the fields
`FILE|nombre|tamano|checksum`, extended with `COMPRESSED|tamano_comprimido`
when compression is on, line-terminated with CRLF. -/
def crearHeader (nombre_archivo : String) (tamano : Nat) (checksum : String)
    (comprimido : Bool) (tamano_comprimido : Nat) : String :=
  let campos : List (List Char) :=
    ["FILE".data, nombre_archivo.data, (pyStrNat tamano).data, checksum.data]
  let campos :=
    if comprimido then campos ++ ["COMPRESSED".data, (pyStrNat tamano_comprimido).data]
    else campos
  ⟨joinL '|' campos ++ ['\r', '\n']⟩

/-- `ProtocoloTransferencia.parsear_header`: strip the string, split on `'|'`,
require at least four fields headed by `FILE`, parse the size, and read the
optional `COMPRESSED` extension.  Exceptions (`int` failures or the explicit
raise on an invalid header) become `Except.error` values carrying the message
wrapped into the raised `FileTransferError`. -/
def parsearHeader (header_str : String) : Except String HeaderInfo :=
  let campos := pySplitL '|' (pyStripL header_str.data)
  if campos.length < 4 ∨ campos.headD [] ≠ "FILE".data then
    .error "Header inválido"
  else
    match pyIntL (campos.getD 2 []) with
    | none => .error "Error parseando header"
    | some t =>
      let base : HeaderInfo :=
        { nombre_archivo := ⟨campos.getD 1 []⟩
          tamano := t
          checksum := ⟨campos.getD 3 []⟩
          comprimido := false
          tamano_comprimido := 0 }
      if campos.length ≥ 6 ∧ campos.getD 4 [] = "COMPRESSED".data then
        match pyIntL (campos.getD 5 []) with
        | none => .error "Error parseando header"
        | some tc => .ok { base with comprimido := true, tamano_comprimido := tc }
      else
        .ok base

/-- The line-extraction loop of `UARTHandler._procesar_datos_recibidos`:
while the buffer holds a terminator, split at the first `'\n'` when one is
present anywhere, otherwise at the first `'\r'`; strip each extracted line
and keep it only when non-empty; the leftover stays buffered. -/
def procesarLineasGo (fuel : Nat) (buffer : List Char) :
    List (List Char) × List Char :=
  match fuel with
  | 0 => ([], buffer)
  | fuel + 1 =>
    if '\n' ∈ buffer then
      let p := splitFirstL '\n' buffer
      let linea := pyStripL p.1
      let r := procesarLineasGo fuel p.2
      (if linea = [] then r.1 else linea :: r.1, r.2)
    else if '\r' ∈ buffer then
      let p := splitFirstL '\r' buffer
      let linea := pyStripL p.1
      let r := procesarLineasGo fuel p.2
      (if linea = [] then r.1 else linea :: r.1, r.2)
    else ([], buffer)

/-- The loop of `_procesar_datos_recibidos`.  Each iteration removes at
least the terminator character, so `buffer.length` iterations always
suffice: the fuel is never what stops the loop. -/
def procesarLineas (buffer : List Char) : List (List Char) × List Char :=
  procesarLineasGo buffer.length buffer

/-- Closed-form description of `procesarLineas`: split the buffer at every
`'\n'`; every part but the last is a line; the last part, which holds no
`'\n'`, is split at every `'\r'` giving the remaining lines, and its own
last part is the retained leftover.  Lines are stripped and empty ones
dropped. -/
def framerSpec (buffer : List Char) : List (List Char) × List Char :=
  let pN := pySplitL '\n' buffer
  let ultimo := pN.getLastD []
  let pR := pySplitL '\r' ultimo
  (((pN.dropLast ++ pR.dropLast).map pyStripL).filter (fun l => decide (l ≠ [])),
   pR.getLastD [])

/-- Outcome of one command handler call: the returned reply (`none` models
Python `None`) or a raised exception with its message. -/
inductive HandlerResult where
  | ok (respuesta : Option String)
  | excepcion (mensaje : String)

/-- The dispatcher's mutable pieces touched by `_procesar_comando`: the
`callbacks_comandos` registry (keys already lowercased, insertion order)
and the `comandos_procesados` counter. -/
structure DispatcherState where
  callbacks : List (String × (ComandoUART → HandlerResult))
  comandos_procesados : Nat

/-- Dictionary lookup in the callback registry. -/
def lookupCallback (cbs : List (String × α)) (nombre : String) : Option α :=
  (cbs.find? (fun p => p.1 == nombre)).map Prod.snd

/-- `UARTHandler._procesar_comando`: parse the line, dispatch to the
registered callback; a callback exception is caught and answered with an
`ERROR|PROCESSING|...` line (the counter is not incremented); an unknown
command is answered with `ERROR|UNKNOWN_COMMAND|...` listing the registered
names; a successful callback increments `comandos_procesados` and its reply
is sent when non-empty (Python truthiness).  Returns the sent lines and the
new state. -/
def procesarComando (st : DispatcherState) (linea : String) :
    List String × DispatcherState :=
  let comando := ComandoUART.fromString linea
  match lookupCallback st.callbacks comando.comando with
  | some callback =>
    match callback comando with
    | .ok respuesta =>
      let enviados :=
        match respuesta with
        | some r => if r ≠ "" then [r] else []
        | none => []
      (enviados, { st with comandos_procesados := st.comandos_procesados + 1 })
    | .excepcion e =>
      (["ERROR|PROCESSING|Error procesando comando '" ++ comando.comando ++ "': " ++ e],
       st)
  | none =>
    (["ERROR|UNKNOWN_COMMAND|Comando '" ++ comando.comando ++ "' no reconocido. Disponibles: "
        ++ String.intercalate ", " (st.callbacks.map Prod.fst)],
     st)

/-- Filesystem model: an association list from file name to byte content. -/
abbrev FS := List (String × List Nat)

/-- Whether a file exists, and its content. -/
def fsLookup : FS → String → Option (List Nat)
  | [], _ => none
  | (a, v) :: fs, nombre => if a = nombre then some v else fsLookup fs nombre

/-- Remove a file. -/
def fsErase (fs : FS) (nombre : String) : FS :=
  fs.filter (fun p => p.1 != nombre)

/-- Write (or overwrite) a file. -/
def fsSet (fs : FS) (nombre : String) (contenido : List Nat) : FS :=
  (nombre, contenido) :: fsErase fs nombre

/-- Filesystem operations performed by the receiver, recorded as a trace. -/
inductive FsOp where
  | rename (origen destino : String)
  | unlink (nombre : String)
  | escribirDescomprimido (origen destino : String)
deriving Repr, DecidableEq

/-- `FileReceiver` reception state. -/
structure ReceiverState where
  recibiendo : Bool
  info_archivo_actual : Option HeaderInfo
  archivo_temporal : Option String
  bytes_recibidos : Nat
  chunks_recibidos : Nat
deriving Repr, DecidableEq

/-- `FileReceiver._limpiar_recepcion`: reset the reception fields and unlink
the temporary file when it still exists. -/
def limpiarRecepcion (st : ReceiverState) (fs : FS) :
    ReceiverState × FS × List FsOp :=
  let st2 : ReceiverState :=
    { recibiendo := false, info_archivo_actual := none, archivo_temporal := none,
      bytes_recibidos := 0, chunks_recibidos := 0 }
  match st.archivo_temporal with
  | some tmp =>
    match fsLookup fs tmp with
    | some _ => (st2, fsErase fs tmp, [.unlink tmp])
    | none => (st2, fs, [])
  | none => (st2, fs, [])

/-- `FileReceiver.procesar_header`: reject when a reception is already in
progress; parse the header (parse exceptions become an `ERROR|...` reply);
check free space (the source reads
`info_archivo.get('tamano_comprimido', info_archivo['tamano'])`, and the
key is always present after parsing, so the checked size is
`tamano_comprimido`); otherwise arm the reception and reply `READY`.
`espacio_libre_ok` models `_verificar_espacio_disponible`. -/
def procesarHeader (espacio_libre_ok : Int → Bool) (st : ReceiverState)
    (header_str : String) : String × Bool × ReceiverState :=
  if st.recibiendo then ("ERROR|Recepción ya en progreso", false, st)
  else
    match parsearHeader header_str with
    | .error e => ("ERROR|" ++ e, false, st)
    | .ok info =>
      if ¬ espacio_libre_ok info.tamano_comprimido then
        ("ERROR|Espacio insuficiente", false, st)
      else
        ("READY", true,
         { recibiendo := true
           info_archivo_actual := some info
           archivo_temporal := some ("temp_" ++ info.nombre_archivo)
           bytes_recibidos := 0
           chunks_recibidos := 0 })

/-- Result of `FileReceiver.finalizar_recepcion`. -/
structure ResultadoFinalizar where
  respuesta : String
  exito : Bool
  st : ReceiverState
  fs : FS
  ops : List FsOp
deriving Repr

/-- The receiver's exception handler in `finalizar_recepcion`: clean up and
reply `ERROR|<detail>`. -/
def finalizarExcepcion (e : String) (st : ReceiverState) (fs : FS)
    (ops : List FsOp) : ResultadoFinalizar :=
  let r := limpiarRecepcion st fs
  { respuesta := "ERROR|" ++ e, exito := false, st := r.1, fs := r.2.1,
    ops := ops ++ r.2.2 }

/-- `FileReceiver.finalizar_recepcion`: first promote the temporary file to
the final name (decompress into it when compressed, else rename); then,
when checksum verification is configured and a checksum was announced,
hash the final file and on mismatch unlink the final file, clean up, and
reply `ERROR|Checksum inválido`; on success reply `DONE`.  `md5` and
`descomprimir` model the hash and the decompressor. -/
def finalizarRecepcion (md5 : List Nat → String)
    (descomprimir : List Nat → Except String (List Nat))
    (verificar_checksum : Bool) (st : ReceiverState) (fs : FS) :
    ResultadoFinalizar :=
  match st.recibiendo, st.info_archivo_actual with
  | true, some info =>
    match st.archivo_temporal with
    | none => finalizarExcepcion "archivo temporal no definido" st fs []
    | some tmp =>
      let archivo_final := info.nombre_archivo
      let paso1 : Except String (FS × List FsOp) :=
        if info.comprimido then
          match fsLookup fs tmp with
          | none => .error "archivo temporal inexistente"
          | some contenido =>
            match descomprimir contenido with
            | .error e => .error e
            | .ok plano =>
              .ok (fsErase (fsSet fs archivo_final plano) tmp,
                   [.escribirDescomprimido tmp archivo_final, .unlink tmp])
        else
          match fsLookup fs tmp with
          | none => .error "archivo temporal inexistente"
          | some contenido =>
            .ok (fsSet (fsErase fs tmp) archivo_final contenido,
                 [.rename tmp archivo_final])
      match paso1 with
      | .error e => finalizarExcepcion e st fs []
      | .ok (fs1, ops1) =>
        if verificar_checksum ∧ info.checksum ≠ "" then
          let checksum_calculado := md5 ((fsLookup fs1 archivo_final).getD [])
          if checksum_calculado ≠ info.checksum then
            let fs2 := fsErase fs1 archivo_final
            let r := limpiarRecepcion st fs2
            { respuesta := "ERROR|Checksum inválido", exito := false,
              st := r.1, fs := r.2.1,
              ops := ops1 ++ [.unlink archivo_final] ++ r.2.2 }
          else
            let r := limpiarRecepcion st fs1
            { respuesta := "DONE", exito := true, st := r.1, fs := r.2.1,
              ops := ops1 ++ r.2.2 }
        else
          let r := limpiarRecepcion st fs1
          { respuesta := "DONE", exito := true, st := r.1, fs := r.2.1,
            ops := ops1 ++ r.2.2 }
  | _, _ =>
    { respuesta := "ERROR|No hay recepción activa", exito := false,
      st := st, fs := fs, ops := [] }

/-- Transfer session states (`EstadoTransferencia`). -/
inductive EstadoTransferencia where
  | pendiente
  | iniciando
  | enviando_header
  | esperando_confirmacion
  | transfiriendo
  | verificando
  | completada
  | error
  | cancelada
deriving Repr, DecidableEq

/-- A state is terminal when the session is over (the three states
`detener`/`cancelar_transferencia` treat as final). -/
def EstadoTransferencia.esTerminal : EstadoTransferencia → Bool
  | .completada | .error | .cancelada => true
  | _ => false

/-- `InfoTransferencia` (the fields the verified operations touch;
timing/speed fields are wall-clock and not modelled). -/
structure InfoTransferencia where
  id_transferencia : String
  archivo_origen : String
  archivo_destino : String
  tamano_total : Nat
  estado : EstadoTransferencia
  progreso_bytes : Nat := 0
  progreso_chunks : Nat := 0
  chunks_totales : Nat := 0
  checksum_origen : String := ""
  compresion_habilitada : Bool := false
  tamano_comprimido : Nat := 0
  error_mensaje : String := ""
deriving Repr, DecidableEq

/-- `FileTransferManager` bookkeeping: the `transferencias_activas`
dictionary and the `cola_transferencias` queue of pending task ids. -/
structure ManagerState where
  transferencias_activas : List (String × InfoTransferencia)
  cola_transferencias : List String
deriving Repr, DecidableEq

/-- `FileTransferManager.programar_envio` on an existing source file: build
an `InfoTransferencia` in state PENDIENTE, store it under its (fresh) id in
`transferencias_activas`, enqueue the task, and return the id.  The id
(`uuid4` in the source) and the file facts are parameters. -/
def programarEnvio (compresion_habilitada : Bool) (st : ManagerState)
    (id_transferencia archivo_origen nombre_archivo : String)
    (tamano_archivo : Nat) : ManagerState × String :=
  let info : InfoTransferencia :=
    { id_transferencia := id_transferencia
      archivo_origen := archivo_origen
      archivo_destino := nombre_archivo
      tamano_total := tamano_archivo
      estado := .pendiente
      compresion_habilitada := compresion_habilitada }
  ({ transferencias_activas :=
       (id_transferencia, info)
         :: st.transferencias_activas.filter (fun p => p.1 != id_transferencia)
     cola_transferencias := st.cola_transferencias ++ [id_transferencia] },
   id_transferencia)

/-- Substring test (Python `in` on strings). -/
def esSubcadena (pat : List Char) : List Char → Bool
  | [] => pat.isEmpty
  | c :: cs => pat.isPrefixOf (c :: cs) || esSubcadena pat cs

/-- The matching test of `_esperar_confirmacion` (both in `UARTHandler` and
`FileTransferManager`): the expected confirmation is found when its
uppercased text occurs as a substring of the uppercased received buffer. -/
def esperarConfirmacionMatch (confirmacion_esperada buffer : String) : Bool :=
  esSubcadena (pyUpper confirmacion_esperada).data (pyUpper buffer).data

/-- Decision of `_esperar_confirmacion` once the received bytes are
`buffer_recibido`: `true` when the expected text matches (checked first),
otherwise `false` (an `ERROR` substring returns early, and running out of
time returns `False` as well). -/
def esperarConfirmacion (confirmacion_esperada buffer_recibido : String) : Bool :=
  if esperarConfirmacionMatch confirmacion_esperada buffer_recibido then true
  else false

/-- Events a sender performs on the byte channel: control lines, raw binary
payload writes, and the observed outcome of each wait. -/
inductive TxEvent where
  | sendLine (linea : String)
  | writeRaw (datos : List Nat)
  | waitOk (token : String)
  | waitFail (token : String)
deriving Repr, DecidableEq

/-- `FileTransferManager._enviar_chunk`: write the raw chunk bytes directly
to the open connection, then wait for `ACK` (no `CHUNK` header, no
`CHUNK_READY` handshake).  Returns the confirmation outcome and the channel
event trace. -/
def managerEnviarChunk (data : List Nat) (chunk_num : Nat)
    (buffer_respuesta : String) : Bool × List TxEvent :=
  let confirmado := esperarConfirmacion "ACK" buffer_respuesta
  (confirmado,
   [TxEvent.writeRaw data,
    if confirmado then TxEvent.waitOk "ACK" else TxEvent.waitFail "ACK"])

/-- A control response delivered to `FileTransferProtocol`: a queued line,
or the expiry of the wait's deadline. -/
inductive Respuesta where
  | msg (s : String)
  | expiraTimeout
deriving Repr, DecidableEq

/-- `FileTransferProtocol._esperar_respuesta_control`: consume queued
responses until one equals (after strip) the expected token — `true` — or
the deadline passes (timeout marker or exhausted script) — `false`.
Unexpected lines are logged and skipped. -/
def esperarRespuestaControl (esperado : String) :
    List Respuesta → Bool × List Respuesta
  | [] => (false, [])
  | .expiraTimeout :: rest => (false, rest)
  | .msg s :: rest =>
    if pyStrip s = esperado then (true, rest)
    else esperarRespuestaControl esperado rest

/-- The retry loop of `FileTransferProtocol._enviar_chunk_con_verificacion`
with `intentos` attempts left: send the `CHUNK|<seq>|<len>` header, wait for
`CHUNK_READY` (failure retries, last attempt fails), then write the raw
chunk bytes and wait for `ACK` (failure retries, last attempt fails).
Returns success, the remaining response script, and the event trace. -/
def enviarChunkAttempts (chunk : List Nat) (chunk_num : Nat) :
    Nat → List Respuesta → Bool × List Respuesta × List TxEvent
  | 0, script => (false, script, [])
  | intentos + 1, script =>
    let chunk_header := "CHUNK|" ++ pyStrNat chunk_num ++ "|" ++ pyStrNat chunk.length
    let r1 := esperarRespuestaControl "CHUNK_READY" script
    if r1.1 = false then
      if intentos = 0 then
        (false, r1.2, [.sendLine chunk_header, .waitFail "CHUNK_READY"])
      else
        let r := enviarChunkAttempts chunk chunk_num intentos r1.2
        (r.1, r.2.1, .sendLine chunk_header :: .waitFail "CHUNK_READY" :: r.2.2)
    else
      let r2 := esperarRespuestaControl "ACK" r1.2
      if r2.1 then
        (true, r2.2,
         [.sendLine chunk_header, .waitOk "CHUNK_READY", .writeRaw chunk, .waitOk "ACK"])
      else if intentos = 0 then
        (false, r2.2,
         [.sendLine chunk_header, .waitOk "CHUNK_READY", .writeRaw chunk, .waitFail "ACK"])
      else
        let r := enviarChunkAttempts chunk chunk_num intentos r2.2
        (r.1, r.2.1,
         .sendLine chunk_header :: .waitOk "CHUNK_READY" :: .writeRaw chunk
           :: .waitFail "ACK" :: r.2.2)

/-- `FileTransferProtocol._enviar_chunk_con_verificacion`
(`MAX_REINTENTOS = 3`). -/
def enviarChunkConVerificacion (chunk : List Nat) (chunk_num : Nat)
    (script : List Respuesta) : Bool × List Respuesta × List TxEvent :=
  enviarChunkAttempts chunk chunk_num 3 script

/-- Well-formedness of a chunk-send trace: every raw write carries exactly
the chunk's bytes and is immediately preceded by an observed `CHUNK_READY`,
itself immediately preceded by the chunk's header line. -/
def buenTrazo (hdr : String) (chunk : List Nat) (t : List TxEvent) : Prop :=
  ∀ i b, t.get? i = some (TxEvent.writeRaw b) →
    b = chunk ∧ 2 ≤ i ∧
    t.get? (i - 1) = some (TxEvent.waitOk "CHUNK_READY") ∧
    t.get? (i - 2) = some (TxEvent.sendLine hdr)

/-- `FileTransferManager._preparar_archivo_envio` on the file's content:
no compression configured — send the original; compression succeeds — send
the compressed bytes and record their size; compression fails — fall back
to the original with compression turned off.  Returns
(bytes to send, effective compression flag, `tamano_comprimido`). -/
def prepararArchivoEnvio (comprimir : List Nat → Except String (List Nat))
    (contenido : List Nat) (compresion_habilitada : Bool) :
    List Nat × Bool × Nat :=
  if compresion_habilitada then
    match comprimir contenido with
    | .ok comprimido => (comprimido, true, comprimido.length)
    | .error _ => (contenido, false, 0)
  else (contenido, false, 0)

/-- The chunk-reading loop of `_transferir_archivo`: at most
`chunks_totales` reads of `chunk_size` bytes, stopping at end of file. -/
def leerChunks (chunk_size : Nat) : Nat → List Nat → List (List Nat)
  | 0, _ => []
  | n + 1, contenido =>
    let chunk := contenido.take chunk_size
    if chunk.isEmpty then [] else chunk :: leerChunks chunk_size n (contenido.drop chunk_size)

/-- What `_ejecutar_envio` commits to the wire: the checksum it computes,
the header it sends, the effective compression flag, and the raw chunk
writes of `_transferir_archivo`. -/
structure ResultadoEnvio where
  checksum_origen : String
  header : String
  compresion_final : Bool
  chunks_enviados : List (List Nat)
deriving Repr

/-- `FileTransferManager._ejecutar_envio` (header/checksum/chunk part):
prepare the file (compression), compute `checksum_origen` over the prepared
bytes, build the header via `crear_header` with the original total size and
the size actually sent, and split the prepared bytes into
`ceil(len / chunk_size)` chunks. -/
def ejecutarEnvio (md5 : List Nat → String)
    (comprimir : List Nat → Except String (List Nat)) (chunk_size : Nat)
    (compresion_cfg : Bool) (nombre_destino : String) (contenido : List Nat) :
    ResultadoEnvio :=
  let prep := prepararArchivoEnvio comprimir contenido compresion_cfg
  let archivo_a_enviar := prep.1
  let compresion_final := prep.2.1
  let tamano_comprimido := prep.2.2
  let checksum_origen := md5 archivo_a_enviar
  let tamano_envio := if compresion_final then tamano_comprimido else contenido.length
  let chunks_totales := (archivo_a_enviar.length + chunk_size - 1) / chunk_size
  { checksum_origen := checksum_origen
    header := crearHeader nombre_destino contenido.length checksum_origen
      compresion_final tamano_envio
    compresion_final := compresion_final
    chunks_enviados := leerChunks chunk_size chunks_totales archivo_a_enviar }

/-! Helper lemmas about the string primitives. -/

theorem splitFirstL_append (sep : Char) (s : List Char) (h : sep ∈ s) :
    (splitFirstL sep s).1 ++ sep :: (splitFirstL sep s).2 = s := by
  induction s with
  | nil => cases h
  | cons a t ih =>
    simp only [splitFirstL]
    by_cases hac : a = sep
    · subst hac; simp
    · simp only [if_neg hac]
      have ht : sep ∈ t := by
        rcases List.mem_cons.mp h with h1 | h1
        · exact absurd h1.symm hac
        · exact h1
      simpa using ih ht

theorem splitFirstL_fst_nosep (sep : Char) (s : List Char) :
    sep ∉ (splitFirstL sep s).1 := by
  induction s with
  | nil => simp [splitFirstL]
  | cons a t ih =>
    simp only [splitFirstL]
    by_cases hac : a = sep
    · simp [hac]
    · simp only [if_neg hac]
      intro hm
      rcases List.mem_cons.mp hm with h1 | h1
      · exact hac h1.symm
      · exact ih h1

theorem splitFirstL_snd_mem (sep x : Char) (s : List Char)
    (h : x ∈ (splitFirstL sep s).2) : x ∈ s := by
  induction s with
  | nil => simp [splitFirstL] at h
  | cons a t ih =>
    simp only [splitFirstL] at h
    by_cases hac : a = sep
    · rw [if_pos hac] at h
      exact List.mem_cons_of_mem a h
    · rw [if_neg hac] at h
      exact List.mem_cons_of_mem a (ih h)

theorem splitFirstL_snd_length (sep : Char) (s : List Char) (h : sep ∈ s) :
    (splitFirstL sep s).2.length < s.length := by
  have h2 := congrArg List.length (splitFirstL_append sep s h)
  simp only [List.length_append, List.length_cons] at h2
  omega

theorem pySplitL_ne_nil (sep : Char) (s : List Char) : pySplitL sep s ≠ [] := by
  cases s with
  | nil => simp [pySplitL]
  | cons a t =>
    simp only [pySplitL]
    by_cases hac : a = sep
    · simp [hac]
    · simp only [if_neg hac]
      cases pySplitL sep t <;> simp

theorem pySplitL_nosep (sep : Char) (s : List Char) (h : sep ∉ s) :
    pySplitL sep s = [s] := by
  induction s with
  | nil => rfl
  | cons a t ih =>
    have hat : ¬ a = sep := fun he => h (he ▸ List.mem_cons_self a t)
    have ht : sep ∉ t := fun hm => h (List.mem_cons_of_mem a hm)
    simp only [pySplitL, if_neg hat, ih ht]

theorem pySplitL_cons_of_mem (sep : Char) (s : List Char) (h : sep ∈ s) :
    pySplitL sep s =
      (splitFirstL sep s).1 :: pySplitL sep (splitFirstL sep s).2 := by
  induction s with
  | nil => cases h
  | cons a t ih =>
    by_cases hac : a = sep
    · subst hac
      simp [pySplitL, splitFirstL]
    · have ht : sep ∈ t := by
        rcases List.mem_cons.mp h with h1 | h1
        · exact absurd h1.symm hac
        · exact h1
      simp only [pySplitL, splitFirstL, if_neg hac]
      rw [ih ht]

theorem pySplitL_append_cons (sep : Char) (a b : List Char) (ha : sep ∉ a) :
    pySplitL sep (a ++ sep :: b) = a :: pySplitL sep b := by
  induction a with
  | nil => simp [pySplitL]
  | cons x xs ih =>
    have hx : ¬ x = sep := fun he => ha (he ▸ List.mem_cons_self x xs)
    have hxs : sep ∉ xs := fun hm => ha (List.mem_cons_of_mem x hm)
    show pySplitL sep (x :: (xs ++ sep :: b)) = (x :: xs) :: pySplitL sep b
    simp only [pySplitL, if_neg hx]
    rw [ih hxs]

theorem joinL_pySplitL (sep : Char) (s : List Char) :
    joinL sep (pySplitL sep s) = s := by
  induction s with
  | nil => rfl
  | cons a t ih =>
    by_cases hac : a = sep
    · subst hac
      obtain ⟨h2, t2, heq⟩ : ∃ h2 t2, pySplitL a t = h2 :: t2 := by
        cases hpt : pySplitL a t with
        | nil => exact absurd hpt (pySplitL_ne_nil a t)
        | cons h2 t2 => exact ⟨h2, t2, rfl⟩
      rw [heq] at ih
      simp only [pySplitL, if_pos rfl, heq, joinL]
      simpa using ih
    · obtain ⟨h2, t2, heq⟩ : ∃ h2 t2, pySplitL sep t = h2 :: t2 := by
        cases hpt : pySplitL sep t with
        | nil => exact absurd hpt (pySplitL_ne_nil sep t)
        | cons h2 t2 => exact ⟨h2, t2, rfl⟩
      rw [heq] at ih
      simp only [pySplitL, if_neg hac, heq]
      cases t2 with
      | nil => simp only [joinL] at ih ⊢; rw [ih]
      | cons u us =>
        simp only [joinL] at ih ⊢
        rw [List.cons_append, ih]

theorem pySplitL_parts_nosep (sep : Char) (s : List Char) :
    ∀ part ∈ pySplitL sep s, sep ∉ part := by
  induction s with
  | nil =>
    intro part hp
    simp [pySplitL] at hp
    simp [hp]
  | cons a t ih =>
    intro part hp
    by_cases hac : a = sep
    · subst hac
      simp only [pySplitL, if_pos rfl] at hp
      rcases List.mem_cons.mp hp with h1 | h1
      · simp [h1]
      · exact ih part h1
    · obtain ⟨h2, t2, heq⟩ : ∃ h2 t2, pySplitL sep t = h2 :: t2 := by
        cases hpt : pySplitL sep t with
        | nil => exact absurd hpt (pySplitL_ne_nil sep t)
        | cons h2 t2 => exact ⟨h2, t2, rfl⟩
      simp only [pySplitL, if_neg hac, heq] at hp
      rcases List.mem_cons.mp hp with h1 | h1
      · subst h1
        intro hm
        rcases List.mem_cons.mp hm with h3 | h3
        · exact hac h3.symm
        · exact ih h2 (heq ▸ List.mem_cons_self h2 t2) h3
      · exact ih part (heq ▸ List.mem_cons_of_mem h2 h1)

theorem pySplitL_mem_sub (sep x : Char) (s part : List Char)
    (hp : part ∈ pySplitL sep s) (hx : x ∈ part) : x ∈ s := by
  induction s generalizing part with
  | nil =>
    simp [pySplitL] at hp
    subst hp
    cases hx
  | cons a t ih =>
    by_cases hac : a = sep
    · subst hac
      simp only [pySplitL, if_pos rfl] at hp
      rcases List.mem_cons.mp hp with h1 | h1
      · subst h1; cases hx
      · exact List.mem_cons_of_mem a (ih part h1 hx)
    · obtain ⟨h2, t2, heq⟩ : ∃ h2 t2, pySplitL sep t = h2 :: t2 := by
        cases hpt : pySplitL sep t with
        | nil => exact absurd hpt (pySplitL_ne_nil sep t)
        | cons h2 t2 => exact ⟨h2, t2, rfl⟩
      simp only [pySplitL, if_neg hac, heq] at hp
      rcases List.mem_cons.mp hp with h1 | h1
      · subst h1
        rcases List.mem_cons.mp hx with h3 | h3
        · exact h3 ▸ List.mem_cons_self a t
        · exact List.mem_cons_of_mem a
            (ih h2 (heq ▸ List.mem_cons_self h2 t2) h3)
      · exact List.mem_cons_of_mem a
          (ih part (heq ▸ List.mem_cons_of_mem h2 h1) hx)

theorem getLastD_congr (l : List α) (a b : α) (h : l ≠ []) :
    l.getLastD a = l.getLastD b := by
  cases l with
  | nil => exact absurd rfl h
  | cons x xs => rw [List.getLastD_cons, List.getLastD_cons]

theorem getLastD_mem (l : List α) (d : α) (h : l ≠ []) : l.getLastD d ∈ l := by
  induction l generalizing d with
  | nil => exact absurd rfl h
  | cons x xs ih =>
    rw [List.getLastD_cons]
    cases xs with
    | nil => simp
    | cons y ys => exact List.mem_cons_of_mem x (ih _ (by simp))

theorem dropLast_cons_of_ne_nil (a : α) (l : List α) (h : l ≠ []) :
    (a :: l).dropLast = a :: l.dropLast := by
  cases l with
  | nil => exact absurd rfl h
  | cons x xs => exact List.dropLast_cons₂

theorem dropWhile_length_le (p : Char → Bool) :
    ∀ l : List Char, (l.dropWhile p).length ≤ l.length := by
  intro l
  induction l with
  | nil => simp
  | cons x xs ih =>
    rw [List.dropWhile_cons]
    by_cases hx : p x = true
    · rw [if_pos hx]
      exact Nat.le_succ_of_le ih
    · rw [if_neg hx]

theorem dropWhile_eq_self_of_all (p : Char → Bool) (l : List Char)
    (h : ∀ c ∈ l, p c = false) : l.dropWhile p = l := by
  induction l with
  | nil => rfl
  | cons x xs ih =>
    rw [List.dropWhile_cons, if_neg (by simp [h x (List.mem_cons_self x xs)])]

theorem mem_dropWhile_of_mem (p : Char → Bool) (c : Char) (l : List Char)
    (hc : p c = false) (h : c ∈ l) : c ∈ l.dropWhile p := by
  induction l with
  | nil => cases h
  | cons x xs ih =>
    rw [List.dropWhile_cons]
    by_cases hx : p x = true
    · rw [if_pos hx]
      rcases List.mem_cons.mp h with h1 | h1
      · subst h1; rw [hc] at hx; cases hx
      · exact ih h1
    · rw [if_neg hx]
      exact h

theorem mem_pyStripL (c : Char) (s : List Char) (hc : pyIsSpace c = false)
    (h : c ∈ s) : c ∈ pyStripL s := by
  unfold pyStripL
  rw [List.mem_reverse]
  refine mem_dropWhile_of_mem _ _ _ hc ?_
  rw [List.mem_reverse]
  exact mem_dropWhile_of_mem _ _ _ hc h

theorem pyStripL_eq_self_of_all (l : List Char)
    (h : ∀ c ∈ l, pyIsSpace c = false) : pyStripL l = l := by
  unfold pyStripL
  rw [dropWhile_eq_self_of_all _ _ h,
      dropWhile_eq_self_of_all _ _ (fun c hc => h c (List.mem_reverse.mp hc)),
      List.reverse_reverse]

theorem revDropWhile_append_right (l m : List Char) (hm : m ≠ [])
    (ht : m.reverse.dropWhile pyIsSpace = m.reverse) :
    (l ++ m).reverse.dropWhile pyIsSpace = (l ++ m).reverse := by
  obtain ⟨x, xs, heq⟩ : ∃ x xs, m.reverse = x :: xs := by
    cases hr : m.reverse with
    | nil => exact absurd (by simpa using congrArg List.reverse hr) hm
    | cons x xs => exact ⟨x, xs, rfl⟩
  have hx : pyIsSpace x = false := by
    rw [heq] at ht
    by_cases hpx : pyIsSpace x = true
    · rw [List.dropWhile_cons, if_pos hpx] at ht
      have := congrArg List.length ht
      have hle := dropWhile_length_le pyIsSpace xs
      simp at this
      omega
    · simpa using hpx
  rw [List.reverse_append, heq, List.cons_append, List.dropWhile_cons,
      if_neg (by simp [hx])]

theorem revDropWhile_of_all (m : List Char)
    (h : ∀ c ∈ m, pyIsSpace c = false) :
    m.reverse.dropWhile pyIsSpace = m.reverse :=
  dropWhile_eq_self_of_all _ _ (fun c hc => h c (List.mem_reverse.mp hc))

theorem pyStripL_wrap_crlf (c : Char) (rest : List Char)
    (hc : pyIsSpace c = false)
    (ht : (c :: rest).reverse.dropWhile pyIsSpace = (c :: rest).reverse) :
    pyStripL ((c :: rest) ++ ['\r', '\n']) = c :: rest := by
  unfold pyStripL
  rw [List.cons_append, List.dropWhile_cons, if_neg (by simp [hc])]
  have : ((c :: (rest ++ ['\r', '\n'])).reverse) =
      '\n' :: '\r' :: (c :: rest).reverse := by
    simp
  rw [this, List.dropWhile_cons, if_pos (by decide), List.dropWhile_cons,
      if_pos (by decide), ht, List.reverse_reverse]

/-! Lemmas about the decimal printer and parser. -/

theorem natDigitsGo_lt10 : ∀ (fuel n : Nat), n < fuel →
    ∀ d ∈ natDigitsGo fuel n, d < 10 := by
  intro fuel
  induction fuel with
  | zero => intro n hn; omega
  | succ fuel ih =>
    intro n hn d hd
    by_cases h10 : n < 10
    · simp only [natDigitsGo, if_pos h10] at hd
      simpa [List.mem_singleton.mp hd]
    · simp only [natDigitsGo, if_neg h10] at hd
      rcases List.mem_append.mp hd with h1 | h1
      · have hdiv : n / 10 < n := Nat.div_lt_self (by omega) (by omega)
        exact ih (n / 10) (by omega) d h1
      · have : d = n % 10 := List.mem_singleton.mp h1
        subst this
        exact Nat.mod_lt n (by omega)

theorem natDigitsGo_ne_nil : ∀ (fuel n : Nat), n < fuel →
    natDigitsGo fuel n ≠ [] := by
  intro fuel n hn
  cases fuel with
  | zero => omega
  | succ fuel =>
    by_cases h10 : n < 10
    · simp [natDigitsGo, if_pos h10]
    · simp [natDigitsGo, if_neg h10]

theorem natDigitsGo_foldl : ∀ (fuel n acc : Nat), n < fuel →
    (natDigitsGo fuel n).foldl (fun a d => a * 10 + d) acc =
      acc * 10 ^ (natDigitsGo fuel n).length + n := by
  intro fuel
  induction fuel with
  | zero => intro n acc hn; omega
  | succ fuel ih =>
    intro n acc hn
    by_cases h10 : n < 10
    · simp [natDigitsGo, if_pos h10]
    · have hdiv : n / 10 < n := Nat.div_lt_self (by omega) (by omega)
      have hfuel : n / 10 < fuel := by omega
      simp only [natDigitsGo, if_neg h10, List.foldl_append, List.foldl_cons,
        List.foldl_nil, List.length_append, List.length_cons, List.length_nil]
      rw [ih (n / 10) acc hfuel]
      have hdm : n / 10 * 10 + n % 10 = n := by omega
      calc (acc * 10 ^ (natDigitsGo fuel (n / 10)).length + n / 10) * 10 + n % 10
          = acc * (10 ^ (natDigitsGo fuel (n / 10)).length * 10)
              + (n / 10 * 10 + n % 10) := by ring
        _ = acc * 10 ^ ((natDigitsGo fuel (n / 10)).length + 0 + 1) + n := by
              rw [hdm, pow_succ]

theorem natDigits_lt10 (n : Nat) : ∀ d ∈ natDigits n, d < 10 :=
  natDigitsGo_lt10 (n + 1) n (Nat.lt_succ_self n)

theorem natDigits_ne_nil (n : Nat) : natDigits n ≠ [] :=
  natDigitsGo_ne_nil (n + 1) n (Nat.lt_succ_self n)

theorem charDigit_digitChar (d : Nat) (h : d < 10) :
    charDigit (digitChar d) = some d := by
  interval_cases d <;> rfl

theorem digitChar_not_space (d : Nat) (h : d < 10) :
    pyIsSpace (digitChar d) = false := by
  interval_cases d <;> rfl

theorem digitChar_ne_pipe (d : Nat) (h : d < 10) : digitChar d ≠ '|' := by
  interval_cases d <;> decide

theorem digitChar_ne_minus (d : Nat) (h : d < 10) : digitChar d ≠ '-' := by
  interval_cases d <;> decide

theorem digitChar_ne_plus (d : Nat) (h : d < 10) : digitChar d ≠ '+' := by
  interval_cases d <;> decide

theorem digitsValAux_digits : ∀ (ds : List Nat) (acc : Nat),
    (∀ d ∈ ds, d < 10) →
    digitsValAux acc (ds.map digitChar) =
      some (ds.foldl (fun a d => a * 10 + d) acc) := by
  intro ds
  induction ds with
  | nil => intro acc _; rfl
  | cons d ds ih =>
    intro acc h
    have hd : d < 10 := h d (List.mem_cons_self d ds)
    simp only [List.map_cons, digitsValAux, charDigit_digitChar d hd,
      List.foldl_cons]
    exact ih (acc * 10 + d) (fun x hx => h x (List.mem_cons_of_mem d hx))

theorem digitsVal_natDigits (n : Nat) :
    digitsVal ((natDigits n).map digitChar) = some n := by
  obtain ⟨d0, ds, heq⟩ : ∃ d0 ds, natDigits n = d0 :: ds := by
    cases hd : natDigits n with
    | nil => exact absurd hd (natDigits_ne_nil n)
    | cons d0 ds => exact ⟨d0, ds, rfl⟩
  have hlt := natDigits_lt10 n
  rw [heq] at hlt
  have hfold := natDigitsGo_foldl (n + 1) n 0 (Nat.lt_succ_self n)
  have hgo : natDigitsGo (n + 1) n = d0 :: ds := heq
  rw [hgo] at hfold
  have h1 := digitsValAux_digits (d0 :: ds) 0 hlt
  rw [hfold] at h1
  rw [heq]
  show digitsVal ((d0 :: ds).map digitChar) = some n
  rw [List.map_cons]
  show digitsValAux 0 (digitChar d0 :: ds.map digitChar) = some n
  rw [← List.map_cons]
  rw [h1]
  norm_num

theorem pyIntL_digits (n : Nat) :
    pyIntL ((natDigits n).map digitChar) = some (n : Int) := by
  have hall : ∀ c ∈ (natDigits n).map digitChar, pyIsSpace c = false := by
    intro c hc
    obtain ⟨d, hd, rfl⟩ := List.mem_map.mp hc
    exact digitChar_not_space d (natDigits_lt10 n d hd)
  obtain ⟨d0, ds, heq⟩ : ∃ d0 ds, natDigits n = d0 :: ds := by
    cases hd : natDigits n with
    | nil => exact absurd hd (natDigits_ne_nil n)
    | cons d0 ds => exact ⟨d0, ds, rfl⟩
  have hd0 : d0 < 10 := natDigits_lt10 n d0 (heq ▸ List.mem_cons_self d0 ds)
  have hstrip : pyStripL ((natDigits n).map digitChar) =
      digitChar d0 :: ds.map digitChar := by
    rw [pyStripL_eq_self_of_all _ hall, heq, List.map_cons]
  have hdv : digitsVal (digitChar d0 :: ds.map digitChar) = some n := by
    have := digitsVal_natDigits n
    rwa [heq, List.map_cons] at this
  unfold pyIntL
  rw [hstrip]
  simp only [if_neg (digitChar_ne_minus d0 hd0),
    if_neg (digitChar_ne_plus d0 hd0), hdv]

theorem revDropWhile_singleton (l : List Char) (c : Char)
    (hc : pyIsSpace c = false) :
    (l ++ [c]).reverse.dropWhile pyIsSpace = (l ++ [c]).reverse := by
  have h : (l ++ [c]).reverse = c :: l.reverse := by simp
  rw [h, List.dropWhile_cons, if_neg (by simp [hc])]

theorem revDropWhile_cons_tail (pre tail : List Char)
    (ht : tail.reverse.dropWhile pyIsSpace = tail.reverse) :
    (pre ++ '|' :: tail).reverse.dropWhile pyIsSpace =
      (pre ++ '|' :: tail).reverse := by
  by_cases h : tail = []
  · subst h
    exact revDropWhile_singleton pre '|' (by decide)
  · have hs : pre ++ '|' :: tail = (pre ++ ['|']) ++ tail := by simp
    rw [hs]
    exact revDropWhile_append_right _ _ h ht

theorem parsearHeader_campos4 (s : String) (f1 dcs f3 : List Char) (t : Int)
    (h : pySplitL '|' (pyStripL s.data) = ["FILE".data, f1, dcs, f3])
    (hint : pyIntL dcs = some t) :
    parsearHeader s =
      .ok { nombre_archivo := ⟨f1⟩, tamano := t, checksum := ⟨f3⟩,
            comprimido := false, tamano_comprimido := 0 } := by
  unfold parsearHeader
  rw [h]
  rw [if_neg (by simp)]
  have hgd : [List.cons 'F' ['I', 'L', 'E'], f1, dcs, f3].getD 2 [] = dcs := rfl
  simp only [List.getD, List.get?_cons_succ, List.get?_cons_zero,
    Option.getD_some]
  rw [hint]
  simp

theorem parsearHeader_campos6 (s : String) (f1 dcs f3 dcs2 : List Char)
    (t tc : Int)
    (h : pySplitL '|' (pyStripL s.data) =
      ["FILE".data, f1, dcs, f3, "COMPRESSED".data, dcs2])
    (hint : pyIntL dcs = some t) (hint2 : pyIntL dcs2 = some tc) :
    parsearHeader s =
      .ok { nombre_archivo := ⟨f1⟩, tamano := t, checksum := ⟨f3⟩,
            comprimido := true, tamano_comprimido := tc } := by
  unfold parsearHeader
  rw [h]
  rw [if_neg (by simp)]
  simp only [List.getD, List.get?_cons_succ, List.get?_cons_zero,
    Option.getD_some]
  rw [hint]
  simp [hint2]

/-- C10 (corrected): `parsear_header` inverts `crear_header` for every file
name containing no `'|'` and no CR/LF, every non-negative size and
compressed size, and both compression flags — provided the checksum
contains no `'|'` **and does not end in a whitespace character** (the
parser strips the whole header line, so trailing whitespace of an
uncompressed header's checksum field is lost); the parsed
`tamano_comprimido` is the announced one when compressed and `0`
otherwise. -/
theorem C10_theorem (nombre : String) (tamano tamano_comprimido : Nat)
    (checksum : String) (comprimido : Bool)
    (hn : '|' ∉ nombre.data) (hr : '\r' ∉ nombre.data) (hl : '\n' ∉ nombre.data)
    (hc : '|' ∉ checksum.data)
    (hcs : checksum.data.reverse.dropWhile pyIsSpace = checksum.data.reverse) :
    parsearHeader (crearHeader nombre tamano checksum comprimido tamano_comprimido) =
      .ok { nombre_archivo := nombre, tamano := (tamano : Int), checksum := checksum,
            comprimido := comprimido,
            tamano_comprimido :=
              if comprimido then (tamano_comprimido : Int) else 0 } := by
  have hdigs : ∀ m : Nat, '|' ∉ (natDigits m).map digitChar := by
    intro m hm
    obtain ⟨d, hd, he⟩ := List.mem_map.mp hm
    exact digitChar_ne_pipe d (natDigits_lt10 m d hd) he
  have hdigs_ne : ∀ m : Nat, (natDigits m).map digitChar ≠ [] := by
    intro m h
    exact natDigits_ne_nil m (List.map_eq_nil_iff.mp h)
  have hdigs_ns : ∀ m : Nat, ∀ c ∈ (natDigits m).map digitChar,
      pyIsSpace c = false := by
    intro m c hcm
    obtain ⟨d, hd, he⟩ := List.mem_map.mp hcm
    exact he ▸ digitChar_not_space d (natDigits_lt10 m d hd)
  cases comprimido with
  | false =>
    have hdata : (crearHeader nombre tamano checksum false tamano_comprimido).data
        = ("FILE".data ++ '|' :: (nombre.data ++ '|' ::
            ((natDigits tamano).map digitChar ++ '|' :: checksum.data)))
          ++ ['\r', '\n'] := rfl
    have hsuffix : ("FILE".data ++ '|' :: (nombre.data ++ '|' ::
        ((natDigits tamano).map digitChar ++ '|' :: checksum.data))).reverse.dropWhile
          pyIsSpace
        = ("FILE".data ++ '|' :: (nombre.data ++ '|' ::
            ((natDigits tamano).map digitChar ++ '|' :: checksum.data))).reverse := by
      have hshape : "FILE".data ++ '|' :: (nombre.data ++ '|' ::
          ((natDigits tamano).map digitChar ++ '|' :: checksum.data))
          = ("FILE".data ++ '|' :: (nombre.data ++ '|' ::
              (natDigits tamano).map digitChar)) ++ '|' :: checksum.data := by
        simp
      rw [hshape]
      exact revDropWhile_cons_tail _ _ hcs
    have hjoin : pyStripL
        (crearHeader nombre tamano checksum false tamano_comprimido).data
        = "FILE".data ++ '|' :: (nombre.data ++ '|' ::
            ((natDigits tamano).map digitChar ++ '|' :: checksum.data)) := by
      rw [hdata]
      exact pyStripL_wrap_crlf 'F' _ (by decide) hsuffix
    have hsplit : pySplitL '|' (pyStripL
        (crearHeader nombre tamano checksum false tamano_comprimido).data)
        = ["FILE".data, nombre.data, (natDigits tamano).map digitChar,
           checksum.data] := by
      rw [hjoin]
      rw [pySplitL_append_cons '|' _ _ (by decide)]
      rw [pySplitL_append_cons '|' _ _ hn]
      rw [pySplitL_append_cons '|' _ _ (hdigs tamano)]
      rw [pySplitL_nosep '|' _ hc]
    have hfin := parsearHeader_campos4
      (crearHeader nombre tamano checksum false tamano_comprimido)
      nombre.data ((natDigits tamano).map digitChar) checksum.data
      (tamano : Int) hsplit (pyIntL_digits tamano)
    rw [hfin]
    rfl
  | true =>
    have hdata : (crearHeader nombre tamano checksum true tamano_comprimido).data
        = ("FILE".data ++ '|' :: (nombre.data ++ '|' ::
            ((natDigits tamano).map digitChar ++ '|' :: (checksum.data ++ '|' ::
              ("COMPRESSED".data ++ '|' ::
                (natDigits tamano_comprimido).map digitChar)))))
          ++ ['\r', '\n'] := rfl
    have hsuffix : ("FILE".data ++ '|' :: (nombre.data ++ '|' ::
        ((natDigits tamano).map digitChar ++ '|' :: (checksum.data ++ '|' ::
          ("COMPRESSED".data ++ '|' ::
            (natDigits tamano_comprimido).map digitChar))))).reverse.dropWhile
          pyIsSpace
        = ("FILE".data ++ '|' :: (nombre.data ++ '|' ::
            ((natDigits tamano).map digitChar ++ '|' :: (checksum.data ++ '|' ::
              ("COMPRESSED".data ++ '|' ::
                (natDigits tamano_comprimido).map digitChar))))).reverse := by
      have hshape : "FILE".data ++ '|' :: (nombre.data ++ '|' ::
          ((natDigits tamano).map digitChar ++ '|' :: (checksum.data ++ '|' ::
            ("COMPRESSED".data ++ '|' ::
              (natDigits tamano_comprimido).map digitChar))))
          = ("FILE".data ++ '|' :: (nombre.data ++ '|' ::
              ((natDigits tamano).map digitChar ++ '|' :: (checksum.data ++ '|' ::
                "COMPRESSED".data))))
            ++ '|' :: (natDigits tamano_comprimido).map digitChar := by
        simp
      rw [hshape]
      exact revDropWhile_cons_tail _ _
        (revDropWhile_of_all _ (hdigs_ns tamano_comprimido))
    have hjoin : pyStripL
        (crearHeader nombre tamano checksum true tamano_comprimido).data
        = "FILE".data ++ '|' :: (nombre.data ++ '|' ::
            ((natDigits tamano).map digitChar ++ '|' :: (checksum.data ++ '|' ::
              ("COMPRESSED".data ++ '|' ::
                (natDigits tamano_comprimido).map digitChar)))) := by
      rw [hdata]
      exact pyStripL_wrap_crlf 'F' _ (by decide) hsuffix
    have hsplit : pySplitL '|' (pyStripL
        (crearHeader nombre tamano checksum true tamano_comprimido).data)
        = ["FILE".data, nombre.data, (natDigits tamano).map digitChar,
           checksum.data, "COMPRESSED".data,
           (natDigits tamano_comprimido).map digitChar] := by
      rw [hjoin]
      rw [pySplitL_append_cons '|' _ _ (by decide)]
      rw [pySplitL_append_cons '|' _ _ hn]
      rw [pySplitL_append_cons '|' _ _ (hdigs tamano)]
      rw [pySplitL_append_cons '|' _ _ hc]
      rw [pySplitL_append_cons '|' _ _ (by decide)]
      rw [pySplitL_nosep '|' _ (hdigs tamano_comprimido)]
    have hfin := parsearHeader_campos6
      (crearHeader nombre tamano checksum true tamano_comprimido)
      nombre.data ((natDigits tamano).map digitChar) checksum.data
      ((natDigits tamano_comprimido).map digitChar)
      (tamano : Int) (tamano_comprimido : Int) hsplit
      (pyIntL_digits tamano) (pyIntL_digits tamano_comprimido)
    rw [hfin]
    rfl

/-- C10 counterexample: for the checksum `"a "` (no `'|'`, so admitted by
the claim as stated) the round trip loses the trailing space — the parsed
checksum is `"a"`, not `"a "`, because `parsear_header` strips the whole
line. -/
theorem C10_counterexample :
    parsearHeader (crearHeader "f" 1 "a " false 0) =
      .ok { nombre_archivo := "f", tamano := 1, checksum := "a",
            comprimido := false, tamano_comprimido := 0 } ∧
    ("a" : String) ≠ "a " := by
  exact ⟨rfl, by decide⟩

/-- C10 witness: the amended round trip at a concrete compressed header. -/
theorem C10_witness :
    ('|' ∉ "foto.jpg".data) ∧
    parsearHeader (crearHeader "foto.jpg" 600 "abc12" true 321) =
      .ok { nombre_archivo := "foto.jpg", tamano := 600, checksum := "abc12",
            comprimido := true,
            tamano_comprimido := if true then (321 : Int) else 0 } :=
  ⟨by decide,
   C10_theorem "foto.jpg" 600 321 "abc12" true (by decide) (by decide)
     (by decide) (by decide) (by decide)⟩

/-- C5 (corrected): parsing splits the stripped line at **every** `':'`.
The command name is the case-folded text before the first `':'` and the
parameters are the list of the remaining colon-separated segments (joining
them back with `':'` restores the remainder of the line, so only lines with
a single `':'` carry the remainder as one opaque parameter).  A line
without `':'` is, case-folded and stripped, the name with no parameters. -/
theorem C5_theorem (linea : String) :
    (':' ∈ linea.data →
      (ComandoUART.fromString linea).comando =
        pyLower ⟨(splitFirstL ':' (pyStrip linea).data).1⟩ ∧
      (ComandoUART.fromString linea).parametros =
        (pySplitL ':' (splitFirstL ':' (pyStrip linea).data).2).map
          (fun l => ⟨l⟩) ∧
      joinL ':' ((ComandoUART.fromString linea).parametros.map String.data) =
        (splitFirstL ':' (pyStrip linea).data).2 ∧
      ':' ∉ (splitFirstL ':' (pyStrip linea).data).1) ∧
    (':' ∉ linea.data →
      ComandoUART.fromString linea =
        { comando := pyLower (pyStrip linea), parametros := [] }) := by
  constructor
  · intro h
    have hmem : ':' ∈ (pyStrip linea).data :=
      mem_pyStripL ':' linea.data (by decide) h
    have hsplit := pySplitL_cons_of_mem ':' (pyStrip linea).data hmem
    simp only [ComandoUART.fromString, if_pos h, hsplit, List.map_cons,
      List.headD_cons, List.tail_cons, List.map_map]
    refine ⟨trivial, trivial, ?_, splitFirstL_fst_nosep ':' (pyStrip linea).data⟩
    have hid : (String.data ∘ fun l : List Char => (⟨l⟩ : String)) = id := rfl
    rw [hid, List.map_id]
    exact joinL_pySplitL ':' (splitFirstL ':' (pyStrip linea).data).2
  · intro h
    simp only [ComandoUART.fromString, if_neg h]
    rfl

/-- C5 counterexample: a line whose parameter part contains a further `':'`
is split again — `"cmd:a:b"` parses to the parameter list `["a", "b"]` and
not to the single opaque parameter `"a:b"` demanded by the claim. -/
theorem C5_counterexample :
    ComandoUART.fromString "cmd:a:b" =
      { comando := "cmd", parametros := ["a", "b"] } ∧
    (["a", "b"] : List String) ≠ ["a:b"] := by
  exact ⟨by decide, by decide⟩

/-- C5 witness: the amended statement instantiated at `"CMD:a:b"`. -/
theorem C5_witness :
    (':' ∈ ("CMD:a:b" : String).data) ∧
    ((ComandoUART.fromString "CMD:a:b").comando =
        pyLower ⟨(splitFirstL ':' (pyStrip "CMD:a:b").data).1⟩ ∧
      (ComandoUART.fromString "CMD:a:b").parametros =
        (pySplitL ':' (splitFirstL ':' (pyStrip "CMD:a:b").data).2).map
          (fun l => ⟨l⟩) ∧
      joinL ':' ((ComandoUART.fromString "CMD:a:b").parametros.map String.data) =
        (splitFirstL ':' (pyStrip "CMD:a:b").data).2 ∧
      ':' ∉ (splitFirstL ':' (pyStrip "CMD:a:b").data).1) :=
  ⟨by decide, ( C5_theorem "CMD:a:b").1 (by decide)⟩

theorem getLastD_single (a : List Char) (d : List Char) :
    [a].getLastD d = a := rfl

theorem framerSpec_step_newline (buffer : List Char) (hn : '\n' ∈ buffer) :
    framerSpec buffer =
      (if pyStripL (splitFirstL '\n' buffer).1 = []
       then (framerSpec (splitFirstL '\n' buffer).2).1
       else pyStripL (splitFirstL '\n' buffer).1 ::
         (framerSpec (splitFirstL '\n' buffer).2).1,
       (framerSpec (splitFirstL '\n' buffer).2).2) := by
  have hne := pySplitL_ne_nil '\n' (splitFirstL '\n' buffer).2
  simp only [framerSpec]
  rw [pySplitL_cons_of_mem '\n' buffer hn]
  rw [dropLast_cons_of_ne_nil _ _ hne]
  rw [List.getLastD_cons]
  rw [getLastD_congr _ _ [] hne]
  simp only [List.cons_append, List.map_cons, List.filter_cons]
  by_cases hsp : pyStripL (splitFirstL '\n' buffer).1 = []
  · rw [if_pos hsp, hsp]
    simp
  · rw [if_neg hsp]
    simp [hsp]

theorem framerSpec_step_cr (buffer : List Char) (hn : '\n' ∉ buffer)
    (hr : '\r' ∈ buffer) :
    framerSpec buffer =
      (if pyStripL (splitFirstL '\r' buffer).1 = []
       then (framerSpec (splitFirstL '\r' buffer).2).1
       else pyStripL (splitFirstL '\r' buffer).1 ::
         (framerSpec (splitFirstL '\r' buffer).2).1,
       (framerSpec (splitFirstL '\r' buffer).2).2) := by
  have hn2 : '\n' ∉ (splitFirstL '\r' buffer).2 :=
    fun hm => hn (splitFirstL_snd_mem '\r' '\n' buffer hm)
  have hne := pySplitL_ne_nil '\r' (splitFirstL '\r' buffer).2
  simp only [framerSpec]
  rw [pySplitL_nosep '\n' buffer hn, pySplitL_nosep '\n' _ hn2]
  simp only [List.dropLast_single, getLastD_single, List.nil_append]
  rw [pySplitL_cons_of_mem '\r' buffer hr]
  rw [dropLast_cons_of_ne_nil _ _ hne]
  rw [List.getLastD_cons]
  rw [getLastD_congr _ _ [] hne]
  simp only [List.map_cons, List.filter_cons]
  by_cases hsp : pyStripL (splitFirstL '\r' buffer).1 = []
  · rw [if_pos hsp, hsp]
    simp
  · rw [if_neg hsp]
    simp [hsp]

theorem framerSpec_none (buffer : List Char) (hn : '\n' ∉ buffer)
    (hr : '\r' ∉ buffer) : framerSpec buffer = ([], buffer) := by
  simp only [framerSpec]
  rw [pySplitL_nosep '\n' buffer hn]
  simp only [List.dropLast_single, getLastD_single, List.nil_append]
  rw [pySplitL_nosep '\r' buffer hr]
  simp

theorem procesarLineasGo_spec : ∀ (fuel : Nat) (buffer : List Char),
    buffer.length ≤ fuel → procesarLineasGo fuel buffer = framerSpec buffer := by
  intro fuel
  induction fuel with
  | zero =>
    intro buffer hlen
    have hb : buffer = [] := List.length_eq_zero.mp (Nat.le_zero.mp hlen)
    subst hb
    rfl
  | succ fuel ih =>
    intro buffer hlen
    by_cases hn : '\n' ∈ buffer
    · have hlen2 : (splitFirstL '\n' buffer).2.length ≤ fuel := by
        have := splitFirstL_snd_length '\n' buffer hn
        omega
      simp only [procesarLineasGo, if_pos hn]
      rw [ih _ hlen2, framerSpec_step_newline buffer hn]
    · by_cases hr : '\r' ∈ buffer
      · have hlen2 : (splitFirstL '\r' buffer).2.length ≤ fuel := by
          have := splitFirstL_snd_length '\r' buffer hr
          omega
        simp only [procesarLineasGo, if_neg hn, if_pos hr]
        rw [ih _ hlen2, framerSpec_step_cr buffer hn hr]
      · simp only [procesarLineasGo, if_neg hn, if_neg hr]
        rw [framerSpec_none buffer hn hr]

/-- C6 (corrected): a line ends at the **first `'\n'` present anywhere in
the buffered data**; only when the buffer holds no `'\n'` does the first
`'\r'` terminate a line (an earlier bare `'\r'` does not win over a later
`'\n'` in the same buffer).  Globally: the buffer is split at every `'\n'`,
every part but the last is a line, the last part is split at every `'\r'`
into the remaining lines and the retained leftover.  Lines are stripped of
surrounding whitespace, empty lines are discarded, and the leftover —
which contains no terminator — stays buffered across calls. -/
theorem C6_theorem (buffer : List Char) :
    procesarLineas buffer = framerSpec buffer ∧
    '\n' ∉ (procesarLineas buffer).2 ∧
    '\r' ∉ (procesarLineas buffer).2 := by
  have hmain : procesarLineas buffer = framerSpec buffer :=
    procesarLineasGo_spec buffer.length buffer (Nat.le_refl _)
  refine ⟨hmain, ?_, ?_⟩ <;> rw [hmain] <;> simp only [framerSpec]
  · intro hmem
    have hneN := pySplitL_ne_nil '\n' buffer
    have hultimo : (pySplitL '\n' buffer).getLastD [] ∈ pySplitL '\n' buffer :=
      getLastD_mem _ [] hneN
    have hnoN : '\n' ∉ (pySplitL '\n' buffer).getLastD [] :=
      pySplitL_parts_nosep '\n' buffer _ hultimo
    have hneR := pySplitL_ne_nil '\r' ((pySplitL '\n' buffer).getLastD [])
    have hrem : (pySplitL '\r' ((pySplitL '\n' buffer).getLastD [])).getLastD []
        ∈ pySplitL '\r' ((pySplitL '\n' buffer).getLastD []) :=
      getLastD_mem _ [] hneR
    exact hnoN (pySplitL_mem_sub '\r' '\n' _ _ hrem hmem)
  · intro hmem
    have hneR := pySplitL_ne_nil '\r' ((pySplitL '\n' buffer).getLastD [])
    have hrem : (pySplitL '\r' ((pySplitL '\n' buffer).getLastD [])).getLastD []
        ∈ pySplitL '\r' ((pySplitL '\n' buffer).getLastD []) :=
      getLastD_mem _ [] hneR
    exact pySplitL_parts_nosep '\r' _ _ hrem hmem

/-- C6 witness: the closed-form description instantiated at the concrete
buffer `"a\rb\nc"`. -/
theorem C6_witness :
    procesarLineas "a\rb\nc".data = framerSpec "a\rb\nc".data ∧
    '\n' ∉ (procesarLineas "a\rb\nc".data).2 ∧
    '\r' ∉ (procesarLineas "a\rb\nc".data).2 :=
  C6_theorem "a\rb\nc".data

/-- C6 counterexample: with buffered data `"a\rb\n"` the extracted line is
`"a\rb"` — the later `'\n'` wins over the earlier bare `'\r'`, against the
claim's first-terminator-wins reading, which predicts the lines `"a"`,
`"b"`.  And for `" x \n"` the line is `"x"`: stripping removes surrounding
whitespace, not only trailing CR/LF. -/
theorem C6_counterexample :
    procesarLineas "a\rb\n".data = (["a\rb".data], []) ∧
    "a\rb".data ≠ "a".data ∧
    procesarLineas " x \n".data = (["x".data], []) ∧
    "x".data ≠ " x ".data := by
  decide

/-! Dispatcher claims. -/

/-- C8 (confirmed): a line whose parsed, case-folded name has no registered
callback is answered with exactly one reply,
`ERROR|UNKNOWN_COMMAND|Comando '<name>' no reconocido. Disponibles: ` plus
the comma-joined registered names (the spec renders the fixed Spanish text
in English), and the whole dispatcher state — `comandos_procesados`
included — is unchanged. -/
theorem C8_theorem (st : DispatcherState) (linea : String)
    (h : lookupCallback st.callbacks (ComandoUART.fromString linea).comando =
      none) :
    procesarComando st linea =
      (["ERROR|UNKNOWN_COMMAND|Comando '"
          ++ (ComandoUART.fromString linea).comando
          ++ "' no reconocido. Disponibles: "
          ++ String.intercalate ", " (st.callbacks.map Prod.fst)],
       st) := by
  simp only [procesarComando]
  rw [h]

/-- C8 witness: unknown command `"xyz"` against a registry holding `foto`,
with the counter at 5, stays at 5 and gets the single structured error. -/
theorem C8_witness :
    procesarComando
      ⟨[("foto", fun _ => HandlerResult.ok none)], 5⟩ "xyz" =
      (["ERROR|UNKNOWN_COMMAND|Comando 'xyz' no reconocido. Disponibles: foto"],
       ⟨[("foto", fun _ => HandlerResult.ok none)], 5⟩) := by
  rw [C8_theorem ⟨[("foto", fun _ => HandlerResult.ok none)], 5⟩ "xyz" rfl]
  rfl

/-- C9 (confirmed): when the registered callback raises, the dispatcher
catches the exception and sends the single structured reply
`ERROR|PROCESSING|Error procesando comando '<name>': <detail>` with the
counter unchanged (the embedding returns instead of propagating, as the
`try/except` does); when the callback completes, `comandos_procesados` is
incremented by exactly one. -/
theorem C9_theorem (st : DispatcherState) (linea : String)
    (callback : ComandoUART → HandlerResult)
    (h : lookupCallback st.callbacks (ComandoUART.fromString linea).comando =
      some callback) :
    (∀ e, callback (ComandoUART.fromString linea) = .excepcion e →
      procesarComando st linea =
        (["ERROR|PROCESSING|Error procesando comando '"
            ++ (ComandoUART.fromString linea).comando ++ "': " ++ e],
         st)) ∧
    (∀ r, callback (ComandoUART.fromString linea) = .ok r →
      ((procesarComando st linea).2).comandos_procesados =
        st.comandos_procesados + 1) := by
  constructor
  · intro e he
    simp only [procesarComando, h, he]
  · intro r hr
    simp only [procesarComando, h, hr]

/-- C9 witness: a raising callback is caught, replied to, and the counter
stays at 3. -/
theorem C9_witness :
    procesarComando
      ⟨[("boom", fun _ => HandlerResult.excepcion "explota")], 3⟩ "boom" =
      (["ERROR|PROCESSING|Error procesando comando 'boom': explota"],
       ⟨[("boom", fun _ => HandlerResult.excepcion "explota")], 3⟩) := by
  rw [(C9_theorem
    ⟨[("boom", fun _ => HandlerResult.excepcion "explota")], 3⟩ "boom"
    (fun _ => HandlerResult.excepcion "explota") rfl).1 "explota" rfl]
  rfl

/-! Receiver claims. -/

/-- C4 (corrected, amended part): while a reception is in progress the
receiver rejects any further HEADER with the single reply
`ERROR|Recepción ya en progreso` (the spec's `ERROR|TRANSFER_IN_PROGRESS`
is an example rendering), `exito = false`, and the whole reception state is
left untouched. -/
theorem C4_theorem (espacio : Int → Bool) (st : ReceiverState)
    (header : String) (h : st.recibiendo = true) :
    procesarHeader espacio st header =
      ("ERROR|Recepción ya en progreso", false, st) := by
  unfold procesarHeader
  rw [if_pos h]

/-- C4 witness: a busy receiver rejects a second valid header unchanged. -/
theorem C4_witness :
    procesarHeader (fun _ => true)
      ⟨true, none, none, 0, 0⟩ "FILE|x.jpg|10|abc" =
      ("ERROR|Recepción ya en progreso", false, ⟨true, none, none, 0, 0⟩) :=
  C4_theorem (fun _ => true) ⟨true, none, none, 0, 0⟩ "FILE|x.jpg|10|abc" rfl

/-- C4 counterexample: on the sending side `programar_envio` accepts a
second transfer while the first is still PENDIENTE — afterwards **two**
non-terminal sessions are active on the channel and the second request was
answered with its id, not rejected. -/
theorem C4_counterexample :
    ((programarEnvio false (programarEnvio false ⟨[], []⟩
        "id1" "a.jpg" "a.jpg" 100).1 "id2" "b.jpg" "b.jpg" 200).1.1.length = 2) ∧
    (∀ p ∈ (programarEnvio false (programarEnvio false ⟨[], []⟩
        "id1" "a.jpg" "a.jpg" 100).1 "id2" "b.jpg" "b.jpg" 200).1.1,
      p.2.estado.esTerminal = false) ∧
    (programarEnvio false (programarEnvio false ⟨[], []⟩
        "id1" "a.jpg" "a.jpg" 100).1 "id2" "b.jpg" "b.jpg" 200).2 = "id2" := by
  decide

theorem fsLookup_fsErase_self (fs : FS) (n : String) :
    fsLookup (fsErase fs n) n = none := by
  induction fs with
  | nil => rfl
  | cons p fs ih =>
    obtain ⟨a, v⟩ := p
    by_cases ha : a = n
    · have hb : (a != n) = false := by simp [bne, ha]
      simp only [fsErase, List.filter_cons, hb]
      rw [if_neg (by simp)]
      exact ih
    · have hb : (a != n) = true := by simp [bne, ha]
      simp only [fsErase, List.filter_cons, hb]
      rw [if_pos trivial]
      simp only [fsLookup, if_neg ha]
      exact ih

theorem fsLookup_fsErase_ne (fs : FS) (n m : String) (h : m ≠ n) :
    fsLookup (fsErase fs n) m = fsLookup fs m := by
  induction fs with
  | nil => rfl
  | cons p fs ih =>
    obtain ⟨a, v⟩ := p
    by_cases ha : a = n
    · have hb : (a != n) = false := by simp [bne, ha]
      have ham : ¬ a = m := fun he => h (he.symm.trans ha)
      simp only [fsErase, List.filter_cons, hb]
      rw [if_neg (by simp)]
      rw [show fsLookup ((a, v) :: fs) m = fsLookup fs m from by
        simp only [fsLookup, if_neg ham]]
      exact ih
    · have hb : (a != n) = true := by simp [bne, ha]
      simp only [fsErase, List.filter_cons, hb]
      rw [if_pos trivial]
      by_cases ham : a = m
      · simp only [fsLookup, if_pos ham]
      · simp only [fsLookup, if_neg ham]
        exact ih

theorem fsLookup_fsSet_self (fs : FS) (n : String) (v : List Nat) :
    fsLookup (fsSet fs n v) n = some v := by
  simp [fsSet, fsLookup]

theorem fsLookup_fsSet_ne (fs : FS) (n m : String) (v : List Nat)
    (h : m ≠ n) : fsLookup (fsSet fs n v) m = fsLookup fs m := by
  simp only [fsSet, fsLookup, if_neg (Ne.symm h)]
  exact fsLookup_fsErase_ne fs n m h

/-- C1 (corrected): when the reconstructed file's checksum — computed over
the decompressed bytes when the header declared compression, over the
received bytes otherwise — differs from the announced one, finalization
replies `ERROR|Checksum inválido` (not `ERROR|CHECKSUM_MISMATCH`), and the
temporary file **is first promoted** to the final name (decompressed into
it when compressed, renamed otherwise — the trace's first operation); the
hash is computed on the promoted file and only then is the final file
unlinked, so afterwards no file remains under either the final or the
temporary name and the reception state is cleared. -/
theorem C1_theorem (md5 : List Nat → String)
    (descomprimir : List Nat → Except String (List Nat))
    (st : ReceiverState) (fs : FS) (info : HeaderInfo) (tmp : String)
    (contenido plano : List Nat)
    (h1 : st.recibiendo = true)
    (h2 : st.info_archivo_actual = some info)
    (h3 : st.archivo_temporal = some tmp)
    (h5 : fsLookup fs tmp = some contenido)
    (hrec : if info.comprimido then descomprimir contenido = Except.ok plano
            else plano = contenido)
    (h6 : md5 plano ≠ info.checksum)
    (h7 : info.checksum ≠ "")
    (h8 : tmp ≠ info.nombre_archivo) :
    (finalizarRecepcion md5 descomprimir true st fs).respuesta =
      "ERROR|Checksum inválido" ∧
    (finalizarRecepcion md5 descomprimir true st fs).exito = false ∧
    fsLookup (finalizarRecepcion md5 descomprimir true st fs).fs
      info.nombre_archivo = none ∧
    fsLookup (finalizarRecepcion md5 descomprimir true st fs).fs tmp = none ∧
    (finalizarRecepcion md5 descomprimir true st fs).st.recibiendo = false ∧
    (finalizarRecepcion md5 descomprimir true st fs).ops.head? =
      some (if info.comprimido then
              FsOp.escribirDescomprimido tmp info.nombre_archivo
            else FsOp.rename tmp info.nombre_archivo) := by
  cases hcomp : info.comprimido with
  | false =>
    rw [hcomp] at hrec
    simp only [Bool.false_eq_true, if_false] at hrec ⊢
    subst hrec
    have hlookup1 : fsLookup
        (fsSet (fsErase fs tmp) info.nombre_archivo plano)
        info.nombre_archivo = some plano :=
      fsLookup_fsSet_self _ _ _
    have hfs2tmp : fsLookup (fsErase
        (fsSet (fsErase fs tmp) info.nombre_archivo plano)
        info.nombre_archivo) tmp = none := by
      rw [fsLookup_fsErase_ne _ _ _ h8,
          fsLookup_fsSet_ne _ _ _ _ h8,
          fsLookup_fsErase_self]
    have hred : finalizarRecepcion md5 descomprimir true st fs =
        { respuesta := "ERROR|Checksum inválido", exito := false
          st := { recibiendo := false, info_archivo_actual := none,
                  archivo_temporal := none, bytes_recibidos := 0,
                  chunks_recibidos := 0 }
          fs := fsErase (fsSet (fsErase fs tmp) info.nombre_archivo plano)
            info.nombre_archivo
          ops := [FsOp.rename tmp info.nombre_archivo] ++
            [FsOp.unlink info.nombre_archivo] ++ [] } := by
      simp only [finalizarRecepcion, h1, h2, h3, hcomp, h5,
        Bool.false_eq_true, if_false, hlookup1, Option.getD_some]
      rw [if_pos ⟨trivial, h7⟩]
      rw [if_pos h6]
      simp only [limpiarRecepcion, h3, hfs2tmp]
    rw [hred]
    refine ⟨rfl, rfl, ?_, ?_, rfl, rfl⟩
    · exact fsLookup_fsErase_self _ _
    · exact hfs2tmp
  | true =>
    rw [hcomp] at hrec
    simp only [eq_self_iff_true, if_true] at hrec ⊢
    have hlookup1 : fsLookup
        (fsErase (fsSet fs info.nombre_archivo plano) tmp)
        info.nombre_archivo = some plano := by
      rw [fsLookup_fsErase_ne _ _ _ (Ne.symm h8), fsLookup_fsSet_self]
    have hfs2tmp : fsLookup (fsErase
        (fsErase (fsSet fs info.nombre_archivo plano) tmp)
        info.nombre_archivo) tmp = none := by
      rw [fsLookup_fsErase_ne _ _ _ h8, fsLookup_fsErase_self]
    have hred : finalizarRecepcion md5 descomprimir true st fs =
        { respuesta := "ERROR|Checksum inválido", exito := false
          st := { recibiendo := false, info_archivo_actual := none,
                  archivo_temporal := none, bytes_recibidos := 0,
                  chunks_recibidos := 0 }
          fs := fsErase (fsErase (fsSet fs info.nombre_archivo plano) tmp)
            info.nombre_archivo
          ops := [FsOp.escribirDescomprimido tmp info.nombre_archivo,
                  FsOp.unlink tmp] ++
            [FsOp.unlink info.nombre_archivo] ++ [] } := by
      simp only [finalizarRecepcion, h1, h2, h3, hcomp, h5, hrec,
        eq_self_iff_true, if_true, hlookup1, Option.getD_some]
      rw [if_pos ⟨trivial, h7⟩]
      rw [if_pos h6]
      simp only [limpiarRecepcion, h3, hfs2tmp]
    rw [hred]
    refine ⟨rfl, rfl, ?_, ?_, rfl, rfl⟩
    · exact fsLookup_fsErase_self _ _
    · exact hfs2tmp

/-- C1 witness: a concrete mismatching **compressed** reception (announced
checksum `"deadbeef"`, decompressed content `[5, 5]`, computed `"00"`): the
first trace operation is the decompression into the final name, and
afterwards neither file remains. -/
theorem C1_witness :
    (finalizarRecepcion (fun _ => "00") (fun _ => Except.ok [5, 5]) true
      ⟨true, some ⟨"foto.jpg", 3, "deadbeef", true, 10⟩, some "temp_foto.jpg",
        3, 1⟩
      [("temp_foto.jpg", [1, 2, 3])]).respuesta = "ERROR|Checksum inválido" ∧
    (finalizarRecepcion (fun _ => "00") (fun _ => Except.ok [5, 5]) true
      ⟨true, some ⟨"foto.jpg", 3, "deadbeef", true, 10⟩, some "temp_foto.jpg",
        3, 1⟩
      [("temp_foto.jpg", [1, 2, 3])]).exito = false ∧
    fsLookup (finalizarRecepcion (fun _ => "00") (fun _ => Except.ok [5, 5]) true
      ⟨true, some ⟨"foto.jpg", 3, "deadbeef", true, 10⟩, some "temp_foto.jpg",
        3, 1⟩
      [("temp_foto.jpg", [1, 2, 3])]).fs "foto.jpg" = none ∧
    fsLookup (finalizarRecepcion (fun _ => "00") (fun _ => Except.ok [5, 5]) true
      ⟨true, some ⟨"foto.jpg", 3, "deadbeef", true, 10⟩, some "temp_foto.jpg",
        3, 1⟩
      [("temp_foto.jpg", [1, 2, 3])]).fs "temp_foto.jpg" = none ∧
    (finalizarRecepcion (fun _ => "00") (fun _ => Except.ok [5, 5]) true
      ⟨true, some ⟨"foto.jpg", 3, "deadbeef", true, 10⟩, some "temp_foto.jpg",
        3, 1⟩
      [("temp_foto.jpg", [1, 2, 3])]).st.recibiendo = false ∧
    (finalizarRecepcion (fun _ => "00") (fun _ => Except.ok [5, 5]) true
      ⟨true, some ⟨"foto.jpg", 3, "deadbeef", true, 10⟩, some "temp_foto.jpg",
        3, 1⟩
      [("temp_foto.jpg", [1, 2, 3])]).ops.head? =
      some (FsOp.escribirDescomprimido "temp_foto.jpg" "foto.jpg") :=
  C1_theorem (fun _ => "00") (fun _ => Except.ok [5, 5])
    ⟨true, some ⟨"foto.jpg", 3, "deadbeef", true, 10⟩, some "temp_foto.jpg",
      3, 1⟩
    [("temp_foto.jpg", [1, 2, 3])]
    ⟨"foto.jpg", 3, "deadbeef", true, 10⟩ "temp_foto.jpg" [1, 2, 3] [5, 5]
    rfl rfl rfl rfl (by exact rfl) (by decide) (by decide) (by decide)

/-- C1 counterexample: at the same concrete reception the reply is the
Spanish `ERROR|Checksum inválido`, not the claimed
`ERROR|CHECKSUM_MISMATCH`, and the recorded filesystem trace **contains the
promotion** `rename temp_foto.jpg → foto.jpg` the claim rules out. -/
theorem C1_counterexample :
    (finalizarRecepcion (fun _ => "00") (fun c => .ok c) true
      ⟨true, some ⟨"foto.jpg", 3, "deadbeef", false, 0⟩, some "temp_foto.jpg",
        3, 1⟩
      [("temp_foto.jpg", [1, 2, 3])]).respuesta = "ERROR|Checksum inválido" ∧
    ("ERROR|Checksum inválido" : String) ≠ "ERROR|CHECKSUM_MISMATCH" ∧
    FsOp.rename "temp_foto.jpg" "foto.jpg" ∈
      (finalizarRecepcion (fun _ => "00") (fun c => .ok c) true
        ⟨true, some ⟨"foto.jpg", 3, "deadbeef", false, 0⟩,
          some "temp_foto.jpg", 3, 1⟩
        [("temp_foto.jpg", [1, 2, 3])]).ops := by
  refine ⟨rfl, by decide, by decide⟩

/-- C3 (code bug): the sender's ACK wait matches by **substring** on the
uppercased buffer, and `"ACK"` is a substring of `"NACK"` — so a receiver's
NACK satisfies the wait: `_enviar_chunk` reports the chunk as confirmed
(`true`), the retry loop stops, and `_transferir_archivo` advances
`progreso_chunks`/`progreso_bytes`, instead of retransmitting the same
chunk as the claim (and the protocol's own `NACK_MSG`) requires. -/
theorem C3_theorem :
    esperarConfirmacionMatch "ACK" "NACK" = true ∧
    managerEnviarChunk [7] 0 "NACK" =
      (true, [TxEvent.writeRaw [7], TxEvent.waitOk "ACK"]) := by
  decide

theorem leerChunks_join (c : Nat) (hc : 0 < c) : ∀ (fuel : Nat) (l : List Nat),
    l.length ≤ fuel * c → (leerChunks c fuel l).flatten = l := by
  intro fuel
  induction fuel with
  | zero =>
    intro l h
    have hl : l = [] := List.length_eq_zero.mp (by omega)
    subst hl
    rfl
  | succ n ih =>
    intro l h
    cases l with
    | nil => simp [leerChunks]
    | cons x xs =>
      have htake : ((x :: xs).take c).isEmpty = false := by
        cases c with
        | zero => omega
        | succ m => simp [List.take]
      simp only [leerChunks, htake, Bool.false_eq_true, if_false,
        List.flatten_cons]
      rw [ih ((x :: xs).drop c) (by
        have hd : ((x :: xs).drop c).length = (x :: xs).length - c :=
          List.length_drop c (x :: xs)
        have hm : (n + 1) * c = n * c + c := by ring
        omega)]
      exact List.take_append_drop c (x :: xs)

theorem ceil_mul_ge (a b : Nat) (hb : 0 < b) : a ≤ ((a + b - 1) / b) * b := by
  rcases Nat.eq_zero_or_pos a with ha | ha
  · simp [ha]
  · have h1 : (a + b - 1) / b = (a - 1) / b + 1 := by
      have he : a + b - 1 = (a - 1) + b := by omega
      rw [he, Nat.add_div_right _ hb]
    rw [h1]
    have h2 : (a - 1) / b < (a - 1) / b + 1 := Nat.lt_succ_self _
    have h3 : a - 1 < ((a - 1) / b + 1) * b := (Nat.div_lt_iff_lt_mul hb).mp h2
    omega

/-- C7 (confirmed): the checksum placed in the header is computed over the
exact byte sequence written to the wire — the concatenation of the raw
chunk writes equals the prepared bytes, the header's checksum field is
their hash, and those bytes are the compressed file exactly when the
header declares `COMPRESSED` (else the original file). -/
theorem C7_theorem (md5 : List Nat → String)
    (comprimir : List Nat → Except String (List Nat)) (chunk_size : Nat)
    (compresion_cfg : Bool) (nombre : String) (contenido : List Nat)
    (hc : 0 < chunk_size) :
    (ejecutarEnvio md5 comprimir chunk_size compresion_cfg nombre
        contenido).header =
      crearHeader nombre contenido.length
        (md5 (ejecutarEnvio md5 comprimir chunk_size compresion_cfg nombre
          contenido).chunks_enviados.flatten)
        (ejecutarEnvio md5 comprimir chunk_size compresion_cfg nombre
          contenido).compresion_final
        (if (ejecutarEnvio md5 comprimir chunk_size compresion_cfg nombre
          contenido).compresion_final then
            (ejecutarEnvio md5 comprimir chunk_size compresion_cfg nombre
              contenido).chunks_enviados.flatten.length
         else contenido.length) ∧
    (ejecutarEnvio md5 comprimir chunk_size compresion_cfg nombre
        contenido).checksum_origen =
      md5 (ejecutarEnvio md5 comprimir chunk_size compresion_cfg nombre
        contenido).chunks_enviados.flatten ∧
    ((ejecutarEnvio md5 comprimir chunk_size compresion_cfg nombre
        contenido).compresion_final = false →
      (ejecutarEnvio md5 comprimir chunk_size compresion_cfg nombre
        contenido).chunks_enviados.flatten = contenido) ∧
    ((ejecutarEnvio md5 comprimir chunk_size compresion_cfg nombre
        contenido).compresion_final = true →
      ∃ comprimido, comprimir contenido = .ok comprimido ∧
        (ejecutarEnvio md5 comprimir chunk_size compresion_cfg nombre
          contenido).chunks_enviados.flatten = comprimido) := by
  have hjoin : ∀ l : List Nat,
      (leerChunks chunk_size
        ((l.length + chunk_size - 1) / chunk_size) l).flatten = l := by
    intro l
    exact leerChunks_join chunk_size hc _ l
      (by
        have := ceil_mul_ge l.length chunk_size hc
        omega)
  cases compresion_cfg with
  | false =>
    refine ⟨?_, ?_, ?_, ?_⟩
    · simp [ejecutarEnvio, prepararArchivoEnvio, hjoin]
    · simp [ejecutarEnvio, prepararArchivoEnvio, hjoin]
    · intro _
      simp [ejecutarEnvio, prepararArchivoEnvio, hjoin]
    · intro habs
      simp [ejecutarEnvio, prepararArchivoEnvio] at habs
  | true =>
    cases hcomp : comprimir contenido with
    | error e =>
      refine ⟨?_, ?_, ?_, ?_⟩
      · simp [ejecutarEnvio, prepararArchivoEnvio, hcomp, hjoin]
      · simp [ejecutarEnvio, prepararArchivoEnvio, hcomp, hjoin]
      · intro _
        simp [ejecutarEnvio, prepararArchivoEnvio, hcomp, hjoin]
      · intro habs
        simp [ejecutarEnvio, prepararArchivoEnvio, hcomp] at habs
    | ok comprimido =>
      refine ⟨?_, ?_, ?_, ?_⟩
      · simp [ejecutarEnvio, prepararArchivoEnvio, hcomp, hjoin]
      · simp [ejecutarEnvio, prepararArchivoEnvio, hcomp, hjoin]
      · intro habs
        simp [ejecutarEnvio, prepararArchivoEnvio, hcomp] at habs
      · intro _
        exact ⟨comprimido, rfl, by simp [ejecutarEnvio, prepararArchivoEnvio, hcomp, hjoin]⟩

/-- C7 witness: a concrete compressed send with chunk size 2. -/
theorem C7_witness :
    0 < 2 ∧
    ((ejecutarEnvio (fun l => pyStrNat l.length) (fun _ => .ok [9, 9, 9])
        2 true "foto.jpg" [1, 2, 3]).header =
      crearHeader "foto.jpg" 3
        ((fun l : List Nat => pyStrNat l.length)
          ((ejecutarEnvio (fun l => pyStrNat l.length) (fun _ => .ok [9, 9, 9])
            2 true "foto.jpg" [1, 2, 3]).chunks_enviados.flatten))
        ((ejecutarEnvio (fun l => pyStrNat l.length) (fun _ => .ok [9, 9, 9])
          2 true "foto.jpg" [1, 2, 3]).compresion_final)
        (if (ejecutarEnvio (fun l => pyStrNat l.length) (fun _ => .ok [9, 9, 9])
          2 true "foto.jpg" [1, 2, 3]).compresion_final then
            (ejecutarEnvio (fun l => pyStrNat l.length) (fun _ => .ok [9, 9, 9])
              2 true "foto.jpg" [1, 2, 3]).chunks_enviados.flatten.length
         else ([1, 2, 3] : List Nat).length) ∧
      (ejecutarEnvio (fun l => pyStrNat l.length) (fun _ => .ok [9, 9, 9])
        2 true "foto.jpg" [1, 2, 3]).checksum_origen =
        (fun l : List Nat => pyStrNat l.length)
          ((ejecutarEnvio (fun l => pyStrNat l.length) (fun _ => .ok [9, 9, 9])
            2 true "foto.jpg" [1, 2, 3]).chunks_enviados.flatten) ∧
      ((ejecutarEnvio (fun l => pyStrNat l.length) (fun _ => .ok [9, 9, 9])
        2 true "foto.jpg" [1, 2, 3]).compresion_final = false →
        (ejecutarEnvio (fun l => pyStrNat l.length) (fun _ => .ok [9, 9, 9])
          2 true "foto.jpg" [1, 2, 3]).chunks_enviados.flatten = [1, 2, 3]) ∧
      ((ejecutarEnvio (fun l => pyStrNat l.length) (fun _ => .ok [9, 9, 9])
        2 true "foto.jpg" [1, 2, 3]).compresion_final = true →
        ∃ comprimido,
          (fun _ : List Nat => (Except.ok [9, 9, 9] : Except String (List Nat)))
            [1, 2, 3] = .ok comprimido ∧
          (ejecutarEnvio (fun l => pyStrNat l.length) (fun _ => .ok [9, 9, 9])
            2 true "foto.jpg" [1, 2, 3]).chunks_enviados.flatten = comprimido)) :=
  ⟨by decide,
   C7_theorem (fun l => pyStrNat l.length) (fun _ => .ok [9, 9, 9]) 2 true
     "foto.jpg" [1, 2, 3] (by decide)⟩

theorem buenTrazo_nil (hdr : String) (chunk : List Nat) :
    buenTrazo hdr chunk [] := by
  intro i b h
  simp at h

theorem buenTrazo_cons2 (hdr : String) (chunk : List Nat) (e2 : TxEvent)
    (he : ∀ b, e2 ≠ TxEvent.writeRaw b) (t : List TxEvent)
    (ht : buenTrazo hdr chunk t) :
    buenTrazo hdr chunk (TxEvent.sendLine hdr :: e2 :: t) := by
  intro i b h
  match i with
  | 0 => simp at h
  | 1 =>
    rw [List.get?_cons_succ, List.get?_cons_zero] at h
    exact absurd (Option.some.inj h) (he b)
  | (k + 2) =>
    rw [List.get?_cons_succ, List.get?_cons_succ] at h
    obtain ⟨hb, hk, hm1, hm2⟩ := ht k b h
    obtain ⟨m, rfl⟩ : ∃ m, k = m + 2 := ⟨k - 2, by omega⟩
    refine ⟨hb, by omega, ?_, ?_⟩
    · show (TxEvent.sendLine hdr :: e2 :: t).get? (m + 3) = _
      rw [List.get?_cons_succ, List.get?_cons_succ]
      exact hm1
    · show (TxEvent.sendLine hdr :: e2 :: t).get? (m + 2) = _
      rw [List.get?_cons_succ, List.get?_cons_succ]
      exact hm2

theorem buenTrazo_cons4 (hdr : String) (chunk : List Nat) (e4 : TxEvent)
    (he : ∀ b, e4 ≠ TxEvent.writeRaw b) (t : List TxEvent)
    (ht : buenTrazo hdr chunk t) :
    buenTrazo hdr chunk (TxEvent.sendLine hdr :: TxEvent.waitOk "CHUNK_READY"
      :: TxEvent.writeRaw chunk :: e4 :: t) := by
  intro i b h
  match i with
  | 0 => simp at h
  | 1 => simp at h
  | 2 =>
    rw [List.get?_cons_succ, List.get?_cons_succ, List.get?_cons_zero] at h
    have hb : b = chunk := by
      have := Option.some.inj h
      exact (TxEvent.writeRaw.inj this.symm)
    exact ⟨hb, by omega, rfl, rfl⟩
  | 3 =>
    rw [List.get?_cons_succ, List.get?_cons_succ, List.get?_cons_succ,
      List.get?_cons_zero] at h
    exact absurd (Option.some.inj h) (he b)
  | (k + 4) =>
    rw [List.get?_cons_succ, List.get?_cons_succ, List.get?_cons_succ,
      List.get?_cons_succ] at h
    obtain ⟨hb, hk, hm1, hm2⟩ := ht k b h
    obtain ⟨m, rfl⟩ : ∃ m, k = m + 2 := ⟨k - 2, by omega⟩
    refine ⟨hb, by omega, ?_, ?_⟩
    · show (TxEvent.sendLine hdr :: TxEvent.waitOk "CHUNK_READY"
        :: TxEvent.writeRaw chunk :: e4 :: t).get? (m + 5) = _
      rw [List.get?_cons_succ, List.get?_cons_succ, List.get?_cons_succ,
        List.get?_cons_succ]
      exact hm1
    · show (TxEvent.sendLine hdr :: TxEvent.waitOk "CHUNK_READY"
        :: TxEvent.writeRaw chunk :: e4 :: t).get? (m + 4) = _
      rw [List.get?_cons_succ, List.get?_cons_succ, List.get?_cons_succ,
        List.get?_cons_succ]
      exact hm2

theorem enviarChunkAttempts_buenTrazo (chunk : List Nat) (chunk_num : Nat) :
    ∀ (intentos : Nat) (script : List Respuesta),
    buenTrazo ("CHUNK|" ++ pyStrNat chunk_num ++ "|" ++ pyStrNat chunk.length)
      chunk (enviarChunkAttempts chunk chunk_num intentos script).2.2 := by
  intro intentos
  induction intentos with
  | zero =>
    intro script
    exact buenTrazo_nil _ _
  | succ n ih =>
    intro script
    simp only [enviarChunkAttempts]
    by_cases h1 : (esperarRespuestaControl "CHUNK_READY" script).1 = false
    · rw [if_pos h1]
      by_cases hn : n = 0
      · rw [if_pos hn]
        exact buenTrazo_cons2 _ _ _ (fun b => by simp) [] (buenTrazo_nil _ _)
      · rw [if_neg hn]
        exact buenTrazo_cons2 _ _ _ (fun b => by simp) _ (ih _)
    · rw [if_neg h1]
      by_cases h2 : (esperarRespuestaControl "ACK"
          (esperarRespuestaControl "CHUNK_READY" script).2).1 = true
      · rw [if_pos h2]
        exact buenTrazo_cons4 _ _ _ (fun b => by simp) [] (buenTrazo_nil _ _)
      · rw [if_neg h2]
        by_cases hn : n = 0
        · rw [if_pos hn]
          exact buenTrazo_cons4 _ _ _ (fun b => by simp) [] (buenTrazo_nil _ _)
        · rw [if_neg hn]
          exact buenTrazo_cons4 _ _ _ (fun b => by simp) _ (ih _)

/-- C2 (corrected, amended part): in
`FileTransferProtocol._enviar_chunk_con_verificacion` every raw payload
write in the channel trace carries exactly the chunk's bytes and is
immediately preceded by an observed `CHUNK_READY`, which is itself
immediately preceded by the `CHUNK|<seq>|<len>` header line — the payload
is never written before `CHUNK_READY` on this path.  (The also-cited
`FileTransferManager._enviar_chunk` violates the claim: see the
counterexample.) -/
theorem C2_theorem (chunk : List Nat) (chunk_num : Nat)
    (script : List Respuesta) (i : Nat) (b : List Nat)
    (h : (enviarChunkConVerificacion chunk chunk_num script).2.2.get? i =
      some (TxEvent.writeRaw b)) :
    b = chunk ∧ 2 ≤ i ∧
    (enviarChunkConVerificacion chunk chunk_num script).2.2.get? (i - 1) =
      some (TxEvent.waitOk "CHUNK_READY") ∧
    (enviarChunkConVerificacion chunk chunk_num script).2.2.get? (i - 2) =
      some (TxEvent.sendLine
        ("CHUNK|" ++ pyStrNat chunk_num ++ "|" ++ pyStrNat chunk.length)) :=
  enviarChunkAttempts_buenTrazo chunk chunk_num 3 script i b h

/-- C2 witness: a clean two-byte chunk send whose raw write sits at index 2,
after the header line and the `CHUNK_READY` observation. -/
theorem C2_witness :
    ((enviarChunkConVerificacion [1, 2] 0
        [Respuesta.msg "CHUNK_READY", Respuesta.msg "ACK"]).2.2.get? 2 =
      some (TxEvent.writeRaw [1, 2])) ∧
    (([1, 2] : List Nat) = [1, 2] ∧ 2 ≤ 2 ∧
      (enviarChunkConVerificacion [1, 2] 0
          [Respuesta.msg "CHUNK_READY", Respuesta.msg "ACK"]).2.2.get? 1 =
        some (TxEvent.waitOk "CHUNK_READY") ∧
      (enviarChunkConVerificacion [1, 2] 0
          [Respuesta.msg "CHUNK_READY", Respuesta.msg "ACK"]).2.2.get? 0 =
        some (TxEvent.sendLine
          ("CHUNK|" ++ pyStrNat 0 ++ "|" ++ pyStrNat ([1, 2] : List Nat).length))) :=
  ⟨by decide,
   C2_theorem [1, 2] 0 [Respuesta.msg "CHUNK_READY", Respuesta.msg "ACK"]
     2 [1, 2] (by decide)⟩

/-- C2 counterexample: `FileTransferManager._enviar_chunk` writes the raw
payload as its **first** channel event — no `CHUNK|...` header line is ever
sent and no `CHUNK_READY` is ever observed before the payload. -/
theorem C2_counterexample :
    (managerEnviarChunk [7] 0 "ACK").2 =
      [TxEvent.writeRaw [7], TxEvent.waitOk "ACK"] ∧
    TxEvent.waitOk "CHUNK_READY" ∉ (managerEnviarChunk [7] 0 "ACK").2 ∧
    (managerEnviarChunk [7] 0 "ACK").2.head? =
      some (TxEvent.writeRaw [7]) := by
  decide

end Camara
